import Mathlib

/-! # Deterministic sampler (`sample/deterministic.go`)

A shallow embedding of the `DeterministicSampler` of samproxy and the
properties of its threshold derivation (`loadConfigs`) and of its sampling
decision (`GetSampleRate`).

Conventions of the embedding.

* A Go `byte` is a `Fin 256`; a Go `string` or `[]byte` is a list of bytes.
* Go `uint32` values are naturals below `2 ^ 32`; every operation that can
  leave that range is followed by an explicit `% 2 ^ 32`.
* Go `int` and `uint` are taken at their 64-bit width (amd64, arm64): an
  `int` is an integer in `[-2 ^ 63, 2 ^ 63)`, a `uint` a natural below `2 ^ 64`.
* A Go run-time panic is an explicit outcome, `Result.panic`.
* `crypto/sha1` is embedded as an executable function following FIPS 180-4.
-/

namespace Sample

/-! ## Machine values -/

/-- A Go `byte`. -/
abbrev Byte := Fin 256

/-- A Go `string` (and a `[]byte`): a finite sequence of bytes. -/
abbrev GoString := List Byte

/-- A Go `error` value (its message). -/
abbrev GoError := String

/-- Outcome of a Go call: it returns a value, or the run time panics. -/
inductive Result (α : Type) where
  | ret (a : α) : Result α
  | panic (msg : String) : Result α
  deriving Repr, DecidableEq

/-- Sequencing of Go calls: a panic aborts what follows. -/
def Result.bind {α β : Type} (r : Result α) (f : α → Result β) : Result β :=
  match r with
  | Result.ret a => f a
  | Result.panic m => Result.panic m

/-- Go `math.MaxUint32`. -/
def MaxUint32 : Nat := 4294967295

/-- Range of a 64-bit Go `int`. -/
def isGoInt (x : Int) : Prop := -9223372036854775808 ≤ x ∧ x < 9223372036854775808

instance (x : Int) : Decidable (isGoInt x) := by
  unfold isGoInt; infer_instance

/-- Go conversion `uint32(x)` of an `int`: the low 32 bits. -/
def toUint32 (x : Int) : Nat := (x % 4294967296).toNat

/-- Go conversion `uint(x)` of an `int`: the low 64 bits. -/
def toUint (x : Int) : Nat := (x % 18446744073709551616).toNat

/-- Go `a / b` on `uint32`: panics when the divisor is zero. -/
def divUint32 (a b : Nat) : Result Nat :=
  if b = 0 then Result.panic "runtime error: integer divide by zero"
  else Result.ret (a / b)

/-- Go indexing `b[i]` of a slice: panics when `i` is out of range. -/
def index (b : List Byte) (i : Nat) : Result Byte :=
  match b.get? i with
  | some x => Result.ret x
  | none => Result.panic "runtime error: index out of range"

/-! ## `crypto/sha1` -/

namespace Sha1

/-- Left rotation of a 32-bit word. -/
def rotl (x n : Nat) : Nat := ((x <<< n) ||| (x >>> (32 - n))) % 2 ^ 32

/-- Addition of 32-bit words. -/
def add32 (x y : Nat) : Nat := (x + y) % 2 ^ 32

/-- Bitwise complement of a 32-bit word. -/
def not32 (x : Nat) : Nat := x ^^^ 0xFFFFFFFF

/-- The five chaining words of SHA-1. -/
structure State where
  h0 : Nat
  h1 : Nat
  h2 : Nat
  h3 : Nat
  h4 : Nat
  deriving Repr, DecidableEq

/-- Initial chaining value. -/
def init : State := ⟨0x67452301, 0xEFCDAB89, 0x98BADCFE, 0x10325476, 0xC3D2E1F0⟩

/-- Big-endian encoding of a 64-bit length. -/
def lengthBytes (n : Nat) : List Byte :=
  [Fin.ofNat (n >>> 56), Fin.ofNat (n >>> 48), Fin.ofNat (n >>> 40), Fin.ofNat (n >>> 32),
   Fin.ofNat (n >>> 24), Fin.ofNat (n >>> 16), Fin.ofNat (n >>> 8), Fin.ofNat n]

/-- Message padding: a `0x80` byte, zero bytes up to 56 modulo 64, then the
bit length of the message on 8 bytes. -/
def pad (msg : List Byte) : List Byte :=
  let n := msg.length
  let zeros := (119 - n % 64) % 64
  msg ++ [(0x80 : Byte)] ++ List.replicate zeros (0 : Byte) ++ lengthBytes ((8 * n) % 2 ^ 64)

/-- Big-endian words of a block. -/
def words : List Byte → List Nat
  | a :: b :: c :: d :: rest =>
      (a.val <<< 24 ||| b.val <<< 16 ||| c.val <<< 8 ||| d.val) :: words rest
  | _ => []

/-- Extension of the message schedule by `k` words. The schedule is kept
reversed, the most recent word first. -/
def extend : Nat → List Nat → List Nat
  | 0, w => w
  | k + 1, w =>
      let x := rotl (w.getD 2 0 ^^^ w.getD 7 0 ^^^ w.getD 13 0 ^^^ w.getD 15 0) 1
      extend k (x :: w)

/-- The 80 words of the message schedule of a 64-byte block. -/
def schedule (block : List Byte) : List Nat :=
  (extend 64 (words block).reverse).reverse

/-- Round function and round constant of round `i`. -/
def roundFK (i b c d : Nat) : Nat × Nat :=
  if i < 20 then ((b &&& c) ||| (not32 b &&& d), 0x5A827999)
  else if i < 40 then (b ^^^ c ^^^ d, 0x6ED9EBA1)
  else if i < 60 then (((b ||| c) &&& d) ||| (b &&& c), 0x8F1BBCDC)
  else (b ^^^ c ^^^ d, 0xCA62C1D6)

/-- One round on the working variables. -/
def round (s : State) (i w : Nat) : State :=
  let fk := roundFK i s.h1 s.h2 s.h3
  let t := add32 (add32 (add32 (add32 (rotl s.h0 5) fk.1) s.h4) w) fk.2
  ⟨t, s.h0, rotl s.h1 30, s.h2, s.h3⟩

/-- The rounds over a schedule, starting at round `i`. -/
def rounds : List Nat → Nat → State → State
  | [], _, s => s
  | w :: ws, i, s => rounds ws (i + 1) (round s i w)

/-- Compression of one 64-byte block into the chaining value. -/
def block (h : State) (blk : List Byte) : State :=
  let s := rounds (schedule blk) 0 h
  ⟨add32 h.h0 s.h0, add32 h.h1 s.h1, add32 h.h2 s.h2, add32 h.h3 s.h3, add32 h.h4 s.h4⟩

/-- Compression of the first `n` 64-byte blocks of `data`. -/
def blocks : Nat → State → List Byte → State
  | 0, h, _ => h
  | n + 1, h, data => blocks n (block h (data.take 64)) (data.drop 64)

/-- Big-endian bytes of a 32-bit word. -/
def wordBytes (x : Nat) : List Byte :=
  [Fin.ofNat (x >>> 24), Fin.ofNat (x >>> 16), Fin.ofNat (x >>> 8), Fin.ofNat x]

/-- Go `sha1.Sum`: the 20-byte digest of `data`. -/
def Sum (data : List Byte) : List Byte :=
  let p := pad data
  let h := blocks (p.length / 64) init p
  wordBytes h.h0 ++ wordBytes h.h1 ++ wordBytes h.h2 ++ wordBytes h.h3 ++ wordBytes h.h4

end Sha1

/-! ## Collaborators -/

/-- Bytes of a Go string literal (its UTF-8 encoding). -/
def goString (s : String) : GoString := s.toUTF8.data.toList.map (fun b => b.val)

/-- The part of `types.Trace` that the sampler reads, `TraceID`, and the
remaining fields of the trace, of an arbitrary type `α`. -/
structure Trace (α : Type) where
  TraceID : GoString
  other : α

/-- The configuration record of the sampler. -/
structure DetSamplerConfig where
  SampleRate : Int
  deriving Repr, DecidableEq

/-- The `config.Config` collaborator. `GetOtherConfig key c` receives the key
and the record `c` behind the pointer it is passed, and gives the record it
leaves there together with the error it returns (`none` is Go `nil`). -/
structure Config where
  GetOtherConfig : String → DetSamplerConfig → DetSamplerConfig × Option GoError

/-- Value of a field attached to a log entry. -/
inductive LogValue where
  | int (i : Int) : LogValue
  | err (e : GoError) : LogValue
  deriving Repr, DecidableEq

/-- An entry handed to the `logger.Logger` collaborator: `WithField` (when
present), the severity and the message. -/
structure LogEntry where
  level : String
  field : Option (String × LogValue)
  msg : String
  deriving Repr, DecidableEq

/-! ## The sampler -/

/-- Salt of the sampling hash. -/
def shardingSalt : GoString := goString "5VQ8l2jE5aJLPVqk"

/-- The sampler. The `Logger` field is embedded as the list of entries a call
emits. -/
structure DeterministicSampler where
  Config : Config
  sampleRate : Int
  upperBound : Nat
  configName : String

/-- What a call of `loadConfigs` leaves: the sampler, the returned error
(`none` is Go `nil`) and the log entries it emitted. -/
structure LoadResult where
  d : DeterministicSampler
  err : Option GoError
  log : List LogEntry

/-- The key of the sampler's record, `fmt.Sprintf("SamplerConfig.%s", d.configName)`. -/
def configKey (d : DeterministicSampler) : String := "SamplerConfig." ++ d.configName

/-- The method `loadConfigs`. -/
def loadConfigs (d : DeterministicSampler) : Result LoadResult :=
  let dsConfig : DetSamplerConfig := ⟨0⟩
  let r := d.Config.GetOtherConfig (configKey d) dsConfig
  match r.2 with
  | some err => Result.ret ⟨d, some err, []⟩
  | none =>
    let dsConfig := r.1
    let clamp := decide (dsConfig.SampleRate < 1)
    let log : List LogEntry :=
      if clamp then
        [⟨"debug", some ("sample_rate", LogValue.int dsConfig.SampleRate),
          "configured sample rate for deterministic sampler was less than 1; forcing to 1"⟩]
      else []
    let dsConfig : DetSamplerConfig := if clamp then ⟨1⟩ else dsConfig
    let d : DeterministicSampler := { d with sampleRate := dsConfig.SampleRate }
    (divUint32 MaxUint32 (toUint32 d.sampleRate)).bind fun ub =>
    Result.ret ⟨{ d with upperBound := ub }, none, log⟩

/-- The function `bytesToUint32be`. -/
def bytesToUint32be (b : List Byte) : Result Nat :=
  (index b 3).bind fun b3 =>
  (index b 2).bind fun b2 =>
  (index b 1).bind fun b1 =>
  (index b 0).bind fun b0 =>
  Result.ret (((b3.val ||| ((b2.val <<< 8) % 2 ^ 32)) ||| ((b1.val <<< 16) % 2 ^ 32))
    ||| ((b0.val <<< 24) % 2 ^ 32))

/-- The method `GetSampleRate`. The argument is the pointer `trace`: `none`
is the nil pointer. -/
def GetSampleRate {α : Type} (d : DeterministicSampler) (trace : Option (Trace α)) :
    Result (Nat × Bool) :=
  if d.sampleRate ≤ 1 then Result.ret (1, true)
  else
    match trace with
    | none => Result.panic "runtime error: invalid memory address or nil pointer dereference"
    | some tr =>
      let sum := Sha1.Sum (tr.TraceID ++ shardingSalt)
      (bytesToUint32be (sum.take 4)).bind fun v =>
      Result.ret (toUint d.sampleRate, decide (v ≤ d.upperBound))

/-- What a run of the reload callback leaves: the sampler and the log entries
it emitted. The callback returns nothing. -/
structure ReloadResult where
  d : DeterministicSampler
  log : List LogEntry

/-- The closure that `Start` hands to `RegisterReloadCallback` (lines 38 to
43), as a function of the sampler it captures. -/
def reloadCallback (d : DeterministicSampler) : Result ReloadResult :=
  let log0 : List LogEntry := [⟨"debug", none, "reloading deterministic sampler config"⟩]
  (loadConfigs d).bind fun r =>
  match r.err with
  | some err =>
    Result.ret ⟨r.d, log0 ++ r.log ++
      [⟨"error", some ("error", LogValue.err err),
        "failed to reload deterministic sampler configs"⟩]⟩
  | none => Result.ret ⟨r.d, log0 ++ r.log⟩

/-- What a call of `Start` leaves: the sampler, the returned error (`none` is
Go `nil`), the log entries it emitted (the deferred one last) and the
callbacks it handed to `RegisterReloadCallback`, in order. -/
structure StartResult where
  d : DeterministicSampler
  err : Option GoError
  log : List LogEntry
  registered : List (DeterministicSampler → Result ReloadResult)

/-- The method `Start`. -/
def Start (d : DeterministicSampler) : Result StartResult :=
  let log0 : List LogEntry := [⟨"debug", none, "Starting DeterministicSampler"⟩]
  let deferred : List LogEntry := [⟨"debug", none, "Finished starting DeterministicSampler"⟩]
  (loadConfigs d).bind fun r =>
  match r.err with
  | some err => Result.ret ⟨r.d, some err, log0 ++ r.log ++ deferred, []⟩
  | none => Result.ret ⟨r.d, none, log0 ++ r.log ++ deferred, [reloadCallback]⟩

/-- The 32-bit hash values that the test `v <= d.upperBound` of line 74
accepts. -/
def accepted (upperBound : Nat) : Finset Nat :=
  (Finset.range (2 ^ 32)).filter fun v => v ≤ upperBound

/-! ## Interleaved calls

Calls of `loadConfigs` and `GetSampleRate` that run at the same time on one
sampler, as a transition system. A call moves by one access to a shared field
(`sampleRate`, `upperBound`) at a time, in the order of the source lines; a
schedule names the call that moves next. The log entries of `loadConfigs` are
left out here. -/

/-- The fields of the sampler that its calls share. -/
structure Mem where
  sampleRate : Int
  upperBound : Nat
  deriving Repr, DecidableEq

/-- A call in progress, at a program point between two accesses to the shared
fields. -/
inductive Call where
  /-- Method `loadConfigs` at line 52: `GetOtherConfig` has answered with `r`. -/
  | loadRead (r : DetSamplerConfig × Option GoError) : Call
  /-- Method `loadConfigs` at line 64: `sampleRate` is written, `upperBound` not yet. -/
  | loadRate : Call
  /-- Method `loadConfigs` has returned `err`. -/
  | loadDone (err : Option GoError) : Call
  /-- Method `GetSampleRate` at line 69, called on a trace with the ID `id`. -/
  | getStart (id : GoString) : Call
  /-- Method `GetSampleRate` at line 74, with the hash value `v` of line 73. -/
  | getHashed (v : Nat) : Call
  /-- Method `GetSampleRate` at line 74, past the read of `sampleRate`. -/
  | getRate (v : Nat) (rate : Int) : Call
  /-- Method `GetSampleRate` has returned `res`; `seen` is the pair
  `(sampleRate, upperBound)` it read at line 74, if it got there. -/
  | getDone (res : Nat × Bool) (seen : Option (Int × Nat)) : Call
  deriving Repr, DecidableEq

/-- One move of a call on the shared fields. -/
def Call.step (m : Mem) : Call → Result (Mem × Call)
  | Call.loadRead r =>
    match r.2 with
    | some err => Result.ret (m, Call.loadDone (some err))
    | none =>
      Result.ret ({ m with sampleRate := if r.1.SampleRate < 1 then 1 else r.1.SampleRate },
        Call.loadRate)
  | Call.loadRate =>
    (divUint32 MaxUint32 (toUint32 m.sampleRate)).bind fun ub =>
    Result.ret ({ m with upperBound := ub }, Call.loadDone none)
  | Call.loadDone err => Result.ret (m, Call.loadDone err)
  | Call.getStart id =>
    if m.sampleRate ≤ 1 then Result.ret (m, Call.getDone (1, true) none)
    else
      (bytesToUint32be ((Sha1.Sum (id ++ shardingSalt)).take 4)).bind fun v =>
      Result.ret (m, Call.getHashed v)
  | Call.getHashed v => Result.ret (m, Call.getRate v m.sampleRate)
  | Call.getRate v rate =>
    Result.ret (m, Call.getDone (toUint rate, decide (v ≤ m.upperBound))
      (some (rate, m.upperBound)))
  | Call.getDone res seen => Result.ret (m, Call.getDone res seen)

/-- The sampler's shared fields, the calls in progress, and whether a call has
panicked (which ends the process). -/
structure Sys where
  mem : Mem
  calls : List Call
  crashed : Bool
  deriving Repr, DecidableEq

/-- The call `i` moves by `f`. Nothing moves once the process has crashed. -/
def Sys.stepWith (f : Mem → Call → Result (Mem × Call)) (s : Sys) (i : Nat) : Sys :=
  if s.crashed then s
  else
    match s.calls[i]? with
    | none => s
    | some c =>
      match f s.mem c with
      | Result.panic _ => { s with crashed := true }
      | Result.ret (m, c') => ⟨m, s.calls.set i c', false⟩

/-- The call `i` makes one move. -/
def Sys.step (s : Sys) (i : Nat) : Sys := Sys.stepWith Call.step s i

/-- Execution of a schedule. -/
def Sys.run (s : Sys) (sched : List Nat) : Sys := sched.foldl Sys.step s

/-- The schedule in which the calls run one at a time, in the order `order`:
each call makes its (at most three) moves before the next one moves. -/
def serial (order : List Nat) : List Nat := order.flatMap fun i => [i, i, i]

/-- A call at its entry point. -/
def Call.isEntry : Call → Bool
  | Call.loadRead _ => true
  | Call.getStart _ => true
  | _ => false

/-- A call that is not under way: at its entry point, or returned. -/
def Call.isIdle : Call → Bool
  | Call.loadRate => false
  | Call.getHashed _ => false
  | Call.getRate _ _ => false
  | _ => true

/-- A `loadConfigs` call that, if its read has succeeded, has read a
`SampleRate` of at most 4294967295, a rate that fits the `uint32` divisor of
line 64. -/
def Call.inRange : Call → Bool
  | Call.loadRead r => r.2.isSome || decide (r.1.SampleRate ≤ 4294967295)
  | _ => true

/-- The bound is the one derived from the rate, for a rate between 1 and
4294967295: the largest 32-bit value divided by the rate. -/
def Derived (rate : Int) (bound : Nat) : Prop :=
  1 ≤ rate ∧ rate ≤ 4294967295 ∧ bound = MaxUint32 / rate.toNat

instance (rate : Int) (bound : Nat) : Decidable (Derived rate bound) := by
  unfold Derived; infer_instance

/-- The call, if it is a `GetSampleRate` that has returned after reading
`upperBound`, read a bound derived from the rate it read (and returns). -/
def Call.Consistent : Call → Prop
  | Call.getDone _ (some (rate, bound)) => Derived rate bound
  | _ => True

instance (c : Call) : Decidable c.Consistent := by
  unfold Call.Consistent; split <;> infer_instance

/-- Every `GetSampleRate` call that has returned decided on a pair
`(sampleRate, upperBound)` in which the bound is derived from the rate. -/
def Sys.Consistent (s : Sys) : Prop := ∀ c ∈ s.calls, c.Consistent

instance (s : Sys) : Decidable s.Consistent := by
  unfold Sys.Consistent; infer_instance

/-- The shared fields hold an installed state: the state before any load, or
one in which the bound is the one derived from the rate. -/
def Mem.Installed (m : Mem) : Prop :=
  (m.sampleRate = 0 ∧ m.upperBound = 0) ∨ Derived m.sampleRate m.upperBound

instance (m : Mem) : Decidable m.Installed := by
  unfold Mem.Installed; infer_instance

/-- The shared fields of a sampler. -/
def DeterministicSampler.mem (d : DeterministicSampler) : Mem := ⟨d.sampleRate, d.upperBound⟩

/-- The call `i` is replaced by `c` and the shared fields by `m`. -/
def Sys.put (s : Sys) (i : Nat) (m : Mem) (c : Call) : Sys := ⟨m, s.calls.set i c, false⟩

/-- No call is under way: every returned `GetSampleRate` decided on a derived
pair and, unless the process has crashed, the shared fields hold an installed
state and every call is at its entry point or has returned. -/
def Sys.Quiet (s : Sys) : Prop :=
  s.Consistent ∧ (s.crashed = true ∨
    (s.mem.Installed ∧ ∀ c ∈ s.calls, c.isIdle = true ∧ c.inRange = true))

/-! ## Epochs of the shared fields

Bookkeeping along a schedule, beside the system and not part of it. Each
write of `sampleRate` (line 59) begins a new epoch, and a write of
`upperBound` (line 64) belongs to the epoch in which it happens; epoch 0 is
the state at the start. A `GetSampleRate` call reads `sampleRate` at line 74
in some epoch, and reads an `upperBound` that was written in some epoch. -/

/-- The epochs along a schedule: the current epoch, the epoch of the current
`upperBound`, and for each call (by its index) the epoch in which it read
`sampleRate` at line 74 and the epoch of the `upperBound` it read there. -/
structure Epochs where
  now : Nat
  bound : Nat
  rateEpoch : Nat → Nat
  boundEpoch : Nat → Nat

/-- The epochs at the start of a schedule. -/
def Epochs.start : Epochs := ⟨0, 0, fun _ => 0, fun _ => 0⟩

/-- The epochs after the move of the call `i` from the system `s`. -/
def Epochs.step (s : Sys) (e : Epochs) (i : Nat) : Epochs :=
  if s.crashed then e
  else
    match s.calls[i]? with
    | some (Call.loadRead r) =>
      match r.2 with
      | some _ => e
      | none => { e with now := e.now + 1 }
    | some Call.loadRate =>
      if toUint32 s.mem.sampleRate = 0 then e else { e with bound := e.now }
    | some (Call.getHashed _) => { e with rateEpoch := Function.update e.rateEpoch i e.now }
    | some (Call.getRate _ _) => { e with boundEpoch := Function.update e.boundEpoch i e.bound }
    | _ => e

/-- The epochs after a schedule. -/
def Sys.epochs : Sys → Epochs → List Nat → Epochs
  | _, e, [] => e
  | s, e, i :: rest => Sys.epochs (s.step i) (e.step s i) rest

/-- A call that writes no field: a `GetSampleRate` call, or a `loadConfigs`
call whose read of the record fails. -/
def Call.writesNothing : Call → Bool
  | Call.loadRead r => r.2.isSome
  | Call.loadRate => false
  | _ => true

/-- No field has been written: the epoch is 0 and every call has read, if
at all, in the epoch 0. -/
def Epochs.Unwritten (e : Epochs) : Prop :=
  e.now = 0 ∧ e.bound = 0 ∧ (∀ j, e.rateEpoch j = 0) ∧ ∀ j, e.boundEpoch j = 0

/-- What the epochs tell of a call in progress; `hist k` is the value of
`sampleRate` in the epoch `k`. -/
def CallOk (m : Mem) (e : Epochs) (hist : Nat → Int) (i : Nat) : Call → Prop
  | Call.loadRead r => (Call.loadRead r).inRange = true
  | Call.loadRate => 1 ≤ e.now
  | Call.getHashed _ => 1 ≤ m.sampleRate
  | Call.getRate _ rate =>
    1 ≤ m.sampleRate ∧ rate = hist (e.rateEpoch i) ∧ 1 ≤ rate ∧ e.rateEpoch i ≤ e.now
  | Call.getDone res (some (rate, bound)) =>
    res.1 = toUint rate ∧ (e.rateEpoch i = e.boundEpoch i → Derived rate bound)
  | _ => True

/-- The invariant of a running system and its epochs: `sampleRate` holds the
value of the current epoch, `upperBound` is the bound derived from the rate of
its epoch (or both are as at the start), the rates written are between 1 and
4294967295, and every call is as `CallOk` tells. -/
structure Sys.EpochInv (s : Sys) (e : Epochs) (hist : Nat → Int) : Prop where
  running : s.crashed = false
  rate_eq : s.mem.sampleRate = hist e.now
  bound_ok : Mem.Installed ⟨hist e.bound, s.mem.upperBound⟩
  bound_le : e.bound ≤ e.now
  hist_range : ∀ k, 1 ≤ k → k ≤ e.now → 1 ≤ hist k ∧ hist k ≤ 4294967295
  calls_ok : ∀ i c, s.calls[i]? = some c → CallOk s.mem e hist i c

/-! ## Specification-side definitions -/

/-- The first four bytes of a digest read as an unsigned 32-bit big-endian
integer, as the specification words it. -/
def specBigEndian32 (digest : List Byte) : Nat :=
  (digest.getD 0 0).val * 2 ^ 24 + (digest.getD 1 0).val * 2 ^ 16
    + (digest.getD 2 0).val * 2 ^ 8 + (digest.getD 3 0).val

/-- The big-endian encoding of a 32-bit value on four bytes. -/
def specEncodeBigEndian32 (x : Nat) : List Byte :=
  [Fin.ofNat (x / 2 ^ 24), Fin.ofNat (x / 2 ^ 16), Fin.ofNat (x / 2 ^ 8), Fin.ofNat x]

/-! ## Sample collaborators and states -/

/-- A provider whose record holds the sample rate `n`. -/
def constConfig (n : Int) : Config := ⟨fun _ _ => (⟨n⟩, none)⟩

/-- A provider with no record for the sampler: it leaves the record it is
passed as it is and reports no error. -/
def absentConfig : Config := ⟨fun _ c => (c, none)⟩

/-- A provider whose read fails with the error `e`. -/
def failingConfig (e : GoError) : Config := ⟨fun _ c => (c, some e)⟩

/-- The sampler before any load: the Go zero values of `sampleRate` and
`upperBound`. -/
def unconfigured (c : Config) (name : String) : DeterministicSampler := ⟨c, 0, 0, name⟩

/-! ## Lemmas on the machine operations -/

theorem or_shift_eq_sum (a b c d : Nat) (ha : a < 256) (hb : b < 256) (hc : c < 256)
    (hd : d < 256) :
    ((d ||| ((c <<< 8) % 2 ^ 32)) ||| ((b <<< 16) % 2 ^ 32)) ||| ((a <<< 24) % 2 ^ 32)
      = a * 2 ^ 24 + b * 2 ^ 16 + c * 2 ^ 8 + d := by
  have e1 : (c <<< 8) % 2 ^ 32 = 2 ^ 8 * c := by
    rw [Nat.shiftLeft_eq, Nat.mod_eq_of_lt (by omega)]; omega
  have e2 : (b <<< 16) % 2 ^ 32 = 2 ^ 16 * b := by
    rw [Nat.shiftLeft_eq, Nat.mod_eq_of_lt (by omega)]; omega
  have e3 : (a <<< 24) % 2 ^ 32 = 2 ^ 24 * a := by
    rw [Nat.shiftLeft_eq, Nat.mod_eq_of_lt (by omega)]; omega
  have s1 : d ||| 2 ^ 8 * c = 2 ^ 8 * c + d := by
    rw [Nat.or_comm]; exact (Nat.mul_add_lt_is_or (by omega) c).symm
  have s2 : (2 ^ 8 * c + d) ||| 2 ^ 16 * b = 2 ^ 16 * b + (2 ^ 8 * c + d) := by
    rw [Nat.or_comm]; exact (Nat.mul_add_lt_is_or (by omega) b).symm
  have s3 : (2 ^ 16 * b + (2 ^ 8 * c + d)) ||| 2 ^ 24 * a
      = 2 ^ 24 * a + (2 ^ 16 * b + (2 ^ 8 * c + d)) := by
    rw [Nat.or_comm]; exact (Nat.mul_add_lt_is_or (by omega) a).symm
  rw [e1, e2, e3, s1, s2, s3]; omega

theorem bytesToUint32be_four (a b c d : Byte) :
    bytesToUint32be [a, b, c, d]
      = Result.ret (a.val * 2 ^ 24 + b.val * 2 ^ 16 + c.val * 2 ^ 8 + d.val) := by
  simp only [bytesToUint32be, index, List.get?, Result.bind]
  rw [or_shift_eq_sum a.val b.val c.val d.val a.isLt b.isLt c.isLt d.isLt]

theorem Sha1.Sum_length (data : List Byte) : (Sha1.Sum data).length = 20 := by
  simp [Sha1.Sum, Sha1.wordBytes]

theorem Sha1.Sum_take_four (data : List Byte) :
    (Sha1.Sum data).take 4
      = [(Sha1.Sum data).getD 0 0, (Sha1.Sum data).getD 1 0, (Sha1.Sum data).getD 2 0,
         (Sha1.Sum data).getD 3 0] := by
  simp [Sha1.Sum, Sha1.wordBytes]

theorem bytesToUint32be_Sum (data : List Byte) :
    bytesToUint32be ((Sha1.Sum data).take 4) = Result.ret (specBigEndian32 (Sha1.Sum data)) := by
  rw [Sha1.Sum_take_four, bytesToUint32be_four]; rfl

theorem toUint_of_nonneg (x : Int) (h0 : 0 ≤ x) (h : isGoInt x) : toUint x = x.toNat := by
  unfold toUint
  rw [Int.emod_eq_of_lt h0 (by have := h.2; omega)]

/-! ## Test vectors -/

/-- The salt is the ASCII string of the source. -/
theorem shardingSalt_bytes :
    shardingSalt = [0x35, 0x56, 0x51, 0x38, 0x6c, 0x32, 0x6a, 0x45,
                    0x35, 0x61, 0x4a, 0x4c, 0x50, 0x56, 0x71, 0x6b] := by
  decide

/-- FIPS 180-4 example: the digest of the empty message. -/
theorem Sha1.Sum_empty :
    Sha1.Sum [] = [0xda, 0x39, 0xa3, 0xee, 0x5e, 0x6b, 0x4b, 0x0d, 0x32, 0x55,
                   0xbf, 0xef, 0x95, 0x60, 0x18, 0x90, 0xaf, 0xd8, 0x07, 0x09] := by
  set_option maxRecDepth 100000 in decide

/-- FIPS 180-4 example: the digest of `"abc"`. -/
theorem Sha1.Sum_abc :
    Sha1.Sum (goString "abc")
      = [0xa9, 0x99, 0x3e, 0x36, 0x47, 0x06, 0x81, 0x6a, 0xba, 0x3e,
         0x25, 0x71, 0x78, 0x50, 0xc2, 0x6c, 0x9c, 0xd0, 0xd8, 0x9d] := by
  set_option maxRecDepth 100000 in decide

/-- FIPS 180-4 example: the digest of a message of two blocks. -/
theorem Sha1.Sum_two_blocks :
    Sha1.Sum (goString "abcdbcdecdefdefgefghfghighijhijkijkljklmklmnlmnomnopnopq")
      = [0x84, 0x98, 0x3e, 0x44, 0x1c, 0x3b, 0xd2, 0x6e, 0xba, 0xae,
         0x4a, 0xa1, 0xf9, 0x51, 0x29, 0xe5, 0xe5, 0x46, 0x70, 0xf1] := by
  set_option maxRecDepth 100000 in decide

/-- The scenario of the specification: the record `SampleRate: 4` under the
name `"x"` gives the bound `1073741823`, and the trace ID `"abc123"`, whose
hash value is `2720466143`, is dropped at the rate 4. -/
theorem scenario_rate_four :
    (∃ r, loadConfigs (unconfigured (constConfig 4) "x") = Result.ret r ∧ r.err = none
      ∧ r.d.sampleRate = 4 ∧ r.d.upperBound = 1073741823)
    ∧ specBigEndian32 (Sha1.Sum (goString "abc123" ++ shardingSalt)) = 2720466143
    ∧ GetSampleRate ⟨constConfig 4, 4, 1073741823, "x"⟩
        (some (⟨goString "abc123", ()⟩ : Trace Unit)) = Result.ret (4, false)
    ∧ GetSampleRate ⟨constConfig 4, 4, 1073741823, "x"⟩
        (some (⟨goString "trace-2", ()⟩ : Trace Unit)) = Result.ret (4, true) := by
  refine ⟨⟨_, rfl, rfl, rfl, rfl⟩, ?_, ?_, ?_⟩
  · set_option maxRecDepth 100000 in decide
  · set_option maxRecDepth 100000 in decide
  · set_option maxRecDepth 100000 in decide

/-- The bounds the specification lists: the rates 1, 2, 4 and 10. -/
theorem loadConfigs_listed_bounds :
    (∃ r, loadConfigs (unconfigured (constConfig 1) "x") = Result.ret r
      ∧ r.d.sampleRate = 1 ∧ r.d.upperBound = 4294967295)
    ∧ (∃ r, loadConfigs (unconfigured (constConfig 2) "x") = Result.ret r
      ∧ r.d.sampleRate = 2 ∧ r.d.upperBound = 2147483647)
    ∧ (∃ r, loadConfigs (unconfigured (constConfig 4) "x") = Result.ret r
      ∧ r.d.sampleRate = 4 ∧ r.d.upperBound = 1073741823)
    ∧ (∃ r, loadConfigs (unconfigured (constConfig 10) "x") = Result.ret r
      ∧ r.d.sampleRate = 10 ∧ r.d.upperBound = 429496729) :=
  ⟨⟨_, rfl, rfl, rfl⟩, ⟨_, rfl, rfl, rfl⟩, ⟨_, rfl, rfl, rfl⟩, ⟨_, rfl, rfl, rfl⟩⟩

/-! ## `GetSampleRate` -/

/-- C1: with `sampleRate > 1`, `GetSampleRate` returns the rate `sampleRate`,
and keeps the trace exactly when the first four bytes of the SHA-1 digest of
the trace ID followed by the salt, read as an unsigned 32-bit big-endian
integer, are at most `upperBound`. -/
theorem GetSampleRate_general {α : Type} (d : DeterministicSampler) (tr : Trace α)
    (hr : 1 < d.sampleRate) (hi : isGoInt d.sampleRate) :
    ∃ rate keep, GetSampleRate d (some tr) = Result.ret (rate, keep)
      ∧ (rate : Int) = d.sampleRate
      ∧ (keep = true ↔
          specBigEndian32 (Sha1.Sum (tr.TraceID ++ goString "5VQ8l2jE5aJLPVqk")) ≤ d.upperBound) := by
  refine ⟨d.sampleRate.toNat,
    decide (specBigEndian32 (Sha1.Sum (tr.TraceID ++ shardingSalt)) ≤ d.upperBound), ?_, ?_, ?_⟩
  · unfold GetSampleRate
    rw [if_neg (by omega)]
    simp only [bytesToUint32be_Sum, Result.bind]
    rw [toUint_of_nonneg d.sampleRate (by omega) hi]
  · exact Int.toNat_of_nonneg (by omega)
  · simp [shardingSalt]

theorem GetSampleRate_general_witness :
    (1 : Int) < 4 ∧ isGoInt 4 ∧ ∃ rate keep,
      GetSampleRate ⟨constConfig 4, 4, 1073741823, "x"⟩
          (some (⟨goString "trace-2", ()⟩ : Trace Unit)) = Result.ret (rate, keep)
      ∧ (rate : Int) = 4
      ∧ (keep = true ↔
          specBigEndian32 (Sha1.Sum (goString "trace-2" ++ goString "5VQ8l2jE5aJLPVqk"))
            ≤ 1073741823) :=
  ⟨by decide, by decide,
    GetSampleRate_general ⟨constConfig 4, 4, 1073741823, "x"⟩ ⟨goString "trace-2", ()⟩
      (by decide) (by decide)⟩

/-- C4: with `sampleRate ≤ 1`, whatever `upperBound` and the trace are,
`GetSampleRate` returns `(1, true)`. -/
theorem GetSampleRate_fast_path {α : Type} (d : DeterministicSampler)
    (trace : Option (Trace α)) (h : d.sampleRate ≤ 1) :
    GetSampleRate d trace = Result.ret (1, true) := by
  unfold GetSampleRate
  rw [if_pos h]

theorem GetSampleRate_fast_path_witness :
    (1 : Int) ≤ 1 ∧
      GetSampleRate ⟨constConfig 1, 1, 12345, "x"⟩ (some (⟨[], ()⟩ : Trace Unit))
        = Result.ret (1, true) :=
  ⟨by decide,
    GetSampleRate_fast_path ⟨constConfig 1, 1, 12345, "x"⟩ (some ⟨[], ()⟩) (by decide)⟩

/-- C6: the result of `GetSampleRate` is a function of `sampleRate`,
`upperBound` and the trace ID alone: two calls on samplers with the same rate
and bound and on traces with the same `TraceID`, whatever their other fields,
return the same pair. -/
theorem GetSampleRate_deterministic {α : Type} (d1 d2 : DeterministicSampler)
    (t1 t2 : Trace α) (hrate : d1.sampleRate = d2.sampleRate)
    (hbound : d1.upperBound = d2.upperBound) (hid : t1.TraceID = t2.TraceID) :
    GetSampleRate d1 (some t1) = GetSampleRate d2 (some t2) := by
  unfold GetSampleRate
  simp only [hrate, hbound, hid]

theorem GetSampleRate_deterministic_witness :
    (⟨goString "c", 0⟩ : Trace Nat).TraceID = (⟨goString "c", 1⟩ : Trace Nat).TraceID ∧
    GetSampleRate ⟨constConfig 2, 2, 2147483647, "x"⟩ (some (⟨goString "c", 0⟩ : Trace Nat))
      = GetSampleRate ⟨absentConfig, 2, 2147483647, "y"⟩ (some (⟨goString "c", 1⟩ : Trace Nat)) :=
  And.intro rfl <| GetSampleRate_deterministic ⟨constConfig 2, 2, 2147483647, "x"⟩
    ⟨absentConfig, 2, 2147483647, "y"⟩ ⟨goString "c", 0⟩ ⟨goString "c", 1⟩ rfl rfl rfl

/-- C8: for every sampler state and every trace ID, the digest has 20 bytes,
each of the four indexed reads of `bytesToUint32be` on its first four bytes is
in bounds, and `GetSampleRate` returns a pair: it does not panic. -/
theorem GetSampleRate_total {α : Type} (d : DeterministicSampler) (tr : Trace α) :
    (Sha1.Sum (tr.TraceID ++ shardingSalt)).length = 20
      ∧ (∀ i, i < 4 → ∃ x, index ((Sha1.Sum (tr.TraceID ++ shardingSalt)).take 4) i = Result.ret x)
      ∧ ∃ r, GetSampleRate d (some tr) = Result.ret r := by
  refine ⟨Sha1.Sum_length _, ?_, ?_⟩
  · intro i hi
    rw [Sha1.Sum_take_four]
    have : i = 0 ∨ i = 1 ∨ i = 2 ∨ i = 3 := by omega
    rcases this with h | h | h | h <;> subst h <;> exact ⟨_, rfl⟩
  · unfold GetSampleRate
    split
    · exact ⟨_, rfl⟩
    · simp only [bytesToUint32be_Sum, Result.bind]
      exact ⟨_, rfl⟩

/-- C9, as the claim states it, fails: on the sampler before any load
(`sampleRate = 0`, `upperBound = 0`) `GetSampleRate` does not fail, it answers
with the decision `(1, true)`. -/
theorem GetSampleRate_unconfigured_counterexample :
    ¬ (∀ r, GetSampleRate (unconfigured absentConfig "x") (some (⟨goString "c", ()⟩ : Trace Unit))
        ≠ Result.ret r) := by
  intro h
  exact h (1, true) rfl

/-- C9, amended: on the sampler before any load (`sampleRate = 0`,
`upperBound = 0`) `GetSampleRate` returns `(1, true)` for every trace: the
call is answered with the keep-everything decision and no error is reported. -/
theorem GetSampleRate_unconfigured {α : Type} (c : Config) (name : String)
    (trace : Option (Trace α)) :
    GetSampleRate (unconfigured c name) trace = Result.ret (1, true) := by
  rfl

/-! ## `loadConfigs` -/

theorem toUint32_of_lt (n : Int) (h1 : 1 ≤ n) (h2 : n < 4294967296) :
    toUint32 n = n.toNat ∧ toUint32 n ≠ 0 := by
  unfold toUint32
  rw [Int.emod_eq_of_lt (by omega) h2]
  exact ⟨rfl, by omega⟩

/-- For a rate below `2 ^ 32` the derived bound is `4294967295 / N`. -/
theorem loadConfigs_in_range (d : DeterministicSampler) (c : DetSamplerConfig)
    (hok : d.Config.GetOtherConfig (configKey d) ⟨0⟩ = (c, none))
    (h1 : 1 ≤ c.SampleRate) (h2 : c.SampleRate < 4294967296) :
    loadConfigs d
      = Result.ret ⟨{ d with sampleRate := c.SampleRate,
                             upperBound := 4294967295 / c.SampleRate.toNat }, none, []⟩ := by
  obtain ⟨e1, e2⟩ := toUint32_of_lt c.SampleRate h1 h2
  have hn : ¬ c.SampleRate < 1 := by omega
  simp only [loadConfigs, hok, hn, decide_False, Bool.false_eq_true, if_false, divUint32, e2,
    Result.bind]
  rw [e1]; rfl

/-- C2 fails on the code at `SampleRate = 4294967298`: the load succeeds and
leaves `sampleRate = 4294967298`, but `upperBound` is `4294967295 / 2`, the
bound of the truncated divisor `uint32(4294967298) = 2`, and not
`4294967295 / 4294967298 = 0`. -/
theorem loadConfigs_truncated_rate :
    isGoInt 4294967298 ∧
    (∃ r, loadConfigs ⟨constConfig 4294967298, 0, 0, "x"⟩ = Result.ret r ∧ r.err = none
      ∧ r.d.sampleRate = 4294967298 ∧ r.d.upperBound = 2147483647
      ∧ r.d.upperBound ≠ 4294967295 / r.d.sampleRate.toNat) :=
  ⟨by decide, _, rfl, rfl, rfl, rfl, by decide⟩

/-- C3: when `GetOtherConfig` returns the error `e`, `loadConfigs` returns `e`
and leaves the sampler (with it `sampleRate`, `upperBound` and `configName`)
as it was. -/
theorem loadConfigs_error (d : DeterministicSampler) (e : GoError)
    (herr : (d.Config.GetOtherConfig (configKey d) ⟨0⟩).2 = some e) :
    ∃ r, loadConfigs d = Result.ret r ∧ r.err = some e ∧ r.d = d
      ∧ r.d.sampleRate = d.sampleRate ∧ r.d.upperBound = d.upperBound
      ∧ r.d.configName = d.configName := by
  refine ⟨⟨d, some e, []⟩, ?_, rfl, rfl, rfl, rfl, rfl⟩
  simp only [loadConfigs, herr]

theorem loadConfigs_error_witness :
    ((failingConfig "no such key").GetOtherConfig
        (configKey ⟨failingConfig "no such key", 10, 429496729, "x"⟩) ⟨0⟩).2
      = some "no such key" ∧
    ∃ r, loadConfigs ⟨failingConfig "no such key", 10, 429496729, "x"⟩ = Result.ret r
      ∧ r.err = some "no such key"
      ∧ r.d = ⟨failingConfig "no such key", 10, 429496729, "x"⟩
      ∧ r.d.sampleRate = 10 ∧ r.d.upperBound = 429496729 ∧ r.d.configName = "x" :=
  ⟨rfl, loadConfigs_error ⟨failingConfig "no such key", 10, 429496729, "x"⟩ "no such key" rfl⟩

/-- C5: when the provider read succeeds and leaves a `SampleRate` below 1
(zero, negative, or the default 0 of an absent record), `loadConfigs` returns
no error and installs `sampleRate = 1` and `upperBound = 4294967295`. -/
theorem loadConfigs_clamp (d : DeterministicSampler)
    (hok : (d.Config.GetOtherConfig (configKey d) ⟨0⟩).2 = none)
    (hlt : (d.Config.GetOtherConfig (configKey d) ⟨0⟩).1.SampleRate < 1) :
    ∃ r, loadConfigs d = Result.ret r ∧ r.err = none
      ∧ r.d.sampleRate = 1 ∧ r.d.upperBound = 4294967295
      ∧ r.d.configName = d.configName := by
  refine ⟨⟨{ d with sampleRate := 1, upperBound := 4294967295 }, none,
    [⟨"debug", some ("sample_rate", LogValue.int
        (d.Config.GetOtherConfig (configKey d) ⟨0⟩).1.SampleRate),
      "configured sample rate for deterministic sampler was less than 1; forcing to 1"⟩]⟩,
    ?_, rfl, rfl, rfl, rfl⟩
  simp only [loadConfigs, hok, hlt, decide_True, if_true]
  rfl

theorem loadConfigs_clamp_witness :
    (absentConfig.GetOtherConfig (configKey ⟨absentConfig, 10, 429496729, "x"⟩) ⟨0⟩).2 = none ∧
    (absentConfig.GetOtherConfig (configKey ⟨absentConfig, 10, 429496729, "x"⟩) ⟨0⟩).1.SampleRate
      < 1 ∧
    ∃ r, loadConfigs ⟨absentConfig, 10, 429496729, "x"⟩ = Result.ret r ∧ r.err = none
      ∧ r.d.sampleRate = 1 ∧ r.d.upperBound = 4294967295 ∧ r.d.configName = "x" :=
  ⟨rfl, by decide, loadConfigs_clamp ⟨absentConfig, 10, 429496729, "x"⟩ rfl (by decide)⟩

/-- C7 fails on the code at `SampleRate = 4294967296`, a value of a 64-bit
`int`: it passes the clamp, `uint32(4294967296)` is `0`, and the division
`math.MaxUint32 / uint32(d.sampleRate)` panics. -/
theorem loadConfigs_divide_by_zero :
    isGoInt 4294967296 ∧ toUint32 4294967296 = 0 ∧
    loadConfigs ⟨constConfig 4294967296, 0, 0, "x"⟩
      = Result.panic "runtime error: integer divide by zero" :=
  ⟨by decide, rfl, rfl⟩

/-! ## Interleaved calls: lemmas -/

theorem set_of_getElem? {α : Type} (l : List α) (i : Nat) (c : α) (h : l[i]? = some c) :
    l.set i c = l := by
  induction l generalizing i with
  | nil => rfl
  | cons a t ih =>
    cases i with
    | zero =>
      simp only [List.getElem?_cons_zero, Option.some.injEq] at h
      rw [List.set_cons_zero, h]
    | succ j =>
      simp only [List.getElem?_cons_succ] at h
      rw [List.set_cons_succ, ih j h]

theorem Sys.step_crashed (s : Sys) (i : Nat) (h : s.crashed = true) : s.step i = s := by
  simp [Sys.step, Sys.stepWith, h]

theorem Sys.step_ret (s : Sys) (i : Nat) (c c' : Call) (m : Mem) (hcr : s.crashed = false)
    (hc : s.calls[i]? = some c) (hs : Call.step s.mem c = Result.ret (m, c')) :
    s.step i = s.put i m c' := by
  simp [Sys.step, Sys.stepWith, hcr, hc, hs, Sys.put]

theorem Sys.step_panic (s : Sys) (i : Nat) (c : Call) (msg : String) (hcr : s.crashed = false)
    (hc : s.calls[i]? = some c) (hs : Call.step s.mem c = Result.panic msg) :
    s.step i = { s with crashed := true } := by
  simp [Sys.step, Sys.stepWith, hcr, hc, hs]

theorem Sys.step_none (s : Sys) (i : Nat) (hc : s.calls[i]? = none) : s.step i = s := by
  by_cases hcr : s.crashed = true
  · exact Sys.step_crashed s i hcr
  · simp [Sys.step, Sys.stepWith, hcr, hc]

theorem Sys.put_calls (s : Sys) (i : Nat) (c c' : Call) (m : Mem) (hc : s.calls[i]? = some c) :
    (s.put i m c').calls[i]? = some c' := by
  obtain ⟨hlt, _⟩ := List.getElem?_eq_some_iff.mp hc
  simp [Sys.put, List.getElem?_set_self hlt]

theorem Sys.put_put (s : Sys) (i : Nat) (c c' : Call) (m m' : Mem) :
    (s.put i m c).put i m' c' = s.put i m' c' := by
  simp [Sys.put, List.set_set]

/-- A returned call stays as it is. -/
theorem Sys.step_put_fixed (s : Sys) (i : Nat) (c c' : Call) (m : Mem)
    (hc : s.calls[i]? = some c) (hs : Call.step m c' = Result.ret (m, c')) :
    (s.put i m c').step i = s.put i m c' := by
  rw [Sys.step_ret (s.put i m c') i c' c' m rfl (Sys.put_calls s i c c' m hc) hs, Sys.put_put]

theorem Sys.put_consistent (s : Sys) (i : Nat) (c : Call) (m : Mem) (hs : s.Consistent)
    (hc : c.Consistent) : (s.put i m c).Consistent := by
  intro x hx
  rcases List.mem_or_eq_of_mem_set hx with h | h
  · exact hs x h
  · rw [h]; exact hc

theorem Sys.put_idle (s : Sys) (i : Nat) (c : Call) (m : Mem)
    (hs : ∀ x ∈ s.calls, x.isIdle = true ∧ x.inRange = true)
    (hc : c.isIdle = true ∧ c.inRange = true) :
    ∀ x ∈ (s.put i m c).calls, x.isIdle = true ∧ x.inRange = true := by
  intro x hx
  rcases List.mem_or_eq_of_mem_set hx with h | h
  · exact hs x h
  · rw [h]; exact hc

theorem Sys.step_put (s : Sys) (i : Nat) (c c1 c2 : Call) (m m' : Mem)
    (hc : s.calls[i]? = some c) (hs : Call.step m c1 = Result.ret (m', c2)) :
    (s.put i m c1).step i = s.put i m' c2 := by
  rw [Sys.step_ret (s.put i m c1) i c1 c2 m' rfl (Sys.put_calls s i c c1 m hc) hs, Sys.put_put]

theorem Sys.step_put_panic (s : Sys) (i : Nat) (c c1 : Call) (m : Mem) (msg : String)
    (hc : s.calls[i]? = some c) (hs : Call.step m c1 = Result.panic msg) :
    (s.put i m c1).step i = { s.put i m c1 with crashed := true } :=
  Sys.step_panic (s.put i m c1) i c1 msg rfl (Sys.put_calls s i c c1 m hc) hs

theorem Sys.put_self (s : Sys) (i : Nat) (c : Call) (hcr : s.crashed = false)
    (hc : s.calls[i]? = some c) : s.put i s.mem c = s := by
  cases s with
  | mk m cs cr =>
    simp only at hcr hc
    simp only [Sys.put, set_of_getElem? cs i c hc, hcr]

theorem Sys.quiet_of_fixed (s : Sys) (i : Nat) (h : s.Quiet) (hfix : s.step i = s) :
    (((s.step i).step i).step i).Quiet := by
  rw [hfix, hfix, hfix]; exact h

/-- A call that runs from its entry point to its return, with no other call
moving meanwhile, takes a quiet system to a quiet system. -/
theorem Sys.quiet_block (s : Sys) (i : Nat) (h : s.Quiet) :
    (((s.step i).step i).step i).Quiet := by
  obtain ⟨hcons, hrest⟩ := h
  by_cases hcr : s.crashed = true
  · exact Sys.quiet_of_fixed s i ⟨hcons, hrest⟩ (Sys.step_crashed s i hcr)
  have hcr' : s.crashed = false := by simpa using hcr
  rcases hrest with hx | ⟨hinst, hidle⟩
  · exact absurd hx hcr
  cases hc : s.calls[i]? with
  | none => exact Sys.quiet_of_fixed s i ⟨hcons, Or.inr ⟨hinst, hidle⟩⟩ (Sys.step_none s i hc)
  | some c =>
    have hi := hidle c (List.getElem?_mem hc)
    cases c with
    | loadRead r =>
      cases hr : r.2 with
      | some e =>
        have h1 : Call.step s.mem (Call.loadRead r) = Result.ret (s.mem, Call.loadDone (some e)) := by
          simp [Call.step, hr]
        rw [Sys.step_ret s i _ _ _ hcr' hc h1,
          Sys.step_put_fixed s i _ (Call.loadDone (some e)) s.mem hc rfl,
          Sys.step_put_fixed s i _ (Call.loadDone (some e)) s.mem hc rfl]
        exact ⟨Sys.put_consistent s i _ _ hcons trivial,
          Or.inr ⟨hinst, Sys.put_idle s i _ _ hidle ⟨rfl, rfl⟩⟩⟩
      | none =>
        obtain ⟨n, hn⟩ : ∃ n : Int, n = if r.1.SampleRate < 1 then 1 else r.1.SampleRate :=
          ⟨_, rfl⟩
        have h1 : Call.step s.mem (Call.loadRead r)
            = Result.ret (⟨n, s.mem.upperBound⟩, Call.loadRate) := by
          simp [Call.step, hr, hn]
        rw [Sys.step_ret s i _ _ _ hcr' hc h1]
        by_cases hz : toUint32 n = 0
        · have h2 : Call.step ⟨n, s.mem.upperBound⟩ Call.loadRate
              = Result.panic "runtime error: integer divide by zero" := by
            simp [Call.step, divUint32, hz, Result.bind]
          rw [Sys.step_put_panic s i _ _ _ _ hc h2,
            Sys.step_crashed { s.put i ⟨n, s.mem.upperBound⟩ Call.loadRate with crashed := true }
              i rfl]
          exact ⟨Sys.put_consistent s i Call.loadRate ⟨n, s.mem.upperBound⟩ hcons trivial,
            Or.inl rfl⟩
        · have h2 : Call.step ⟨n, s.mem.upperBound⟩ Call.loadRate
              = Result.ret (⟨n, MaxUint32 / toUint32 n⟩, Call.loadDone none) := by
            simp [Call.step, divUint32, hz, Result.bind]
          rw [Sys.step_put s i _ _ _ _ _ hc h2,
            Sys.step_put_fixed s i _ (Call.loadDone none) _ hc rfl]
          have hrange : r.1.SampleRate ≤ 4294967295 := by
            simpa [Call.inRange, hr] using hi.2
          have hn1 : 1 ≤ n ∧ n ≤ 4294967295 := by
            rw [hn]; split <;> omega
          have hd : Derived n (MaxUint32 / toUint32 n) :=
            ⟨hn1.1, hn1.2, by rw [(toUint32_of_lt n hn1.1 (by omega)).1]⟩
          exact ⟨Sys.put_consistent s i _ _ hcons trivial,
            Or.inr ⟨Or.inr hd, Sys.put_idle s i _ _ hidle ⟨rfl, rfl⟩⟩⟩
    | loadRate => simp [Call.isIdle] at hi
    | loadDone e =>
      refine Sys.quiet_of_fixed s i ⟨hcons, Or.inr ⟨hinst, hidle⟩⟩ ?_
      rw [Sys.step_ret s i _ (Call.loadDone e) s.mem hcr' hc rfl, Sys.put_self s i _ hcr' hc]
    | getStart id =>
      by_cases hle : s.mem.sampleRate ≤ 1
      · have h1 : Call.step s.mem (Call.getStart id)
            = Result.ret (s.mem, Call.getDone (1, true) none) := by
          simp [Call.step, hle]
        rw [Sys.step_ret s i _ _ _ hcr' hc h1,
          Sys.step_put_fixed s i _ (Call.getDone (1, true) none) s.mem hc rfl,
          Sys.step_put_fixed s i _ (Call.getDone (1, true) none) s.mem hc rfl]
        exact ⟨Sys.put_consistent s i _ _ hcons trivial,
          Or.inr ⟨hinst, Sys.put_idle s i _ _ hidle ⟨rfl, rfl⟩⟩⟩
      · have h1 : Call.step s.mem (Call.getStart id)
            = Result.ret (s.mem,
                Call.getHashed (specBigEndian32 (Sha1.Sum (id ++ shardingSalt)))) := by
          simp [Call.step, hle, bytesToUint32be_Sum, Result.bind]
        have h2 : Call.step s.mem
              (Call.getHashed (specBigEndian32 (Sha1.Sum (id ++ shardingSalt))))
            = Result.ret (s.mem,
                Call.getRate (specBigEndian32 (Sha1.Sum (id ++ shardingSalt)))
                  s.mem.sampleRate) := rfl
        have h3 : Call.step s.mem
              (Call.getRate (specBigEndian32 (Sha1.Sum (id ++ shardingSalt))) s.mem.sampleRate)
            = Result.ret (s.mem,
                Call.getDone (toUint s.mem.sampleRate,
                  decide (specBigEndian32 (Sha1.Sum (id ++ shardingSalt)) ≤ s.mem.upperBound))
                  (some (s.mem.sampleRate, s.mem.upperBound))) := rfl
        rw [Sys.step_ret s i _ _ _ hcr' hc h1, Sys.step_put s i _ _ _ _ _ hc h2,
          Sys.step_put s i _ _ _ _ _ hc h3]
        have hd : Derived s.mem.sampleRate s.mem.upperBound := by
          rcases hinst with ⟨h0, _⟩ | hd
          · exact absurd (by omega : s.mem.sampleRate ≤ 1) hle
          · exact hd
        exact ⟨Sys.put_consistent s i _ _ hcons hd,
          Or.inr ⟨hinst, Sys.put_idle s i _ _ hidle ⟨rfl, rfl⟩⟩⟩
    | getHashed v => simp [Call.isIdle] at hi
    | getRate v rate => simp [Call.isIdle] at hi
    | getDone res seen =>
      refine Sys.quiet_of_fixed s i ⟨hcons, Or.inr ⟨hinst, hidle⟩⟩ ?_
      rw [Sys.step_ret s i _ (Call.getDone res seen) s.mem hcr' hc rfl,
        Sys.put_self s i _ hcr' hc]

theorem Sys.quiet_serial (order : List Nat) (s : Sys) (h : s.Quiet) :
    (s.run (serial order)).Quiet := by
  induction order generalizing s with
  | nil => exact h
  | cons i rest ih =>
    have e : s.run (serial (i :: rest)) = (((s.step i).step i).step i).run (serial rest) := by
      simp [Sys.run, serial]
    rw [e]
    exact ih _ (Sys.quiet_block s i h)

/-- The moves of a `loadConfigs` call that runs alone are the method
`loadConfigs`: same fields left, same error returned, and a crash exactly
when the method panics. -/
theorem loadConfigs_as_call (d : DeterministicSampler) :
    match loadConfigs d with
    | Result.ret r =>
      Sys.run ⟨d.mem, [Call.loadRead (d.Config.GetOtherConfig (configKey d) ⟨0⟩)], false⟩
          [0, 0, 0]
        = ⟨r.d.mem, [Call.loadDone r.err], false⟩
    | Result.panic _ =>
      (Sys.run ⟨d.mem, [Call.loadRead (d.Config.GetOtherConfig (configKey d) ⟨0⟩)], false⟩
          [0, 0, 0]).crashed = true := by
  cases hr : (d.Config.GetOtherConfig (configKey d) ⟨0⟩).2 with
  | some e =>
    simp [loadConfigs, hr, Sys.run, Sys.step, Sys.stepWith, Call.step, DeterministicSampler.mem]
  | none =>
    by_cases hlt : (d.Config.GetOtherConfig (configKey d) ⟨0⟩).1.SampleRate < 1
    · simp [loadConfigs, hr, hlt, Sys.run, Sys.step, Sys.stepWith, Call.step,
        DeterministicSampler.mem, divUint32, toUint32, Result.bind]
    · by_cases hz : toUint32 (d.Config.GetOtherConfig (configKey d) ⟨0⟩).1.SampleRate = 0
      · simp [loadConfigs, hr, hlt, Sys.run, Sys.step, Sys.stepWith, Call.step,
          DeterministicSampler.mem, divUint32, hz, Result.bind]
      · simp [loadConfigs, hr, hlt, Sys.run, Sys.step, Sys.stepWith, Call.step,
          DeterministicSampler.mem, divUint32, hz, Result.bind]

/-- The moves of a `GetSampleRate` call that runs alone are the method
`GetSampleRate`: the call returns what the method returns and leaves the
fields as they are. -/
theorem GetSampleRate_as_call {α : Type} (d : DeterministicSampler) (tr : Trace α) :
    ∃ res seen, GetSampleRate d (some tr) = Result.ret res
      ∧ Sys.run ⟨d.mem, [Call.getStart tr.TraceID], false⟩ [0, 0, 0]
          = ⟨d.mem, [Call.getDone res seen], false⟩ := by
  by_cases hle : d.sampleRate ≤ 1
  · refine ⟨(1, true), none, by simp [GetSampleRate, hle], ?_⟩
    simp [Sys.run, Sys.step, Sys.stepWith, Call.step, DeterministicSampler.mem, hle]
  · refine ⟨(toUint d.sampleRate,
        decide (specBigEndian32 (Sha1.Sum (tr.TraceID ++ shardingSalt)) ≤ d.upperBound)),
      some (d.sampleRate, d.upperBound), ?_, ?_⟩
    · simp [GetSampleRate, hle, bytesToUint32be_Sum, Result.bind]
    · simp [Sys.run, Sys.step, Sys.stepWith, Call.step, DeterministicSampler.mem, hle,
        bytesToUint32be_Sum, Result.bind]

/-- C10, as the claim states it, fails. The sampler holds the installed pair
`(2, 2147483647)`; a reload to `SampleRate = 10` writes `sampleRate`, a
`GetSampleRate` call on the trace ID `"c"` then runs, and the reload writes
`upperBound` last. The call returns the rate `10` and decides with the bound
`2147483647`, the one derived from the rate `2`: it keeps a trace that the
sampler drops at the installed pair `(10, 429496729)`. -/
theorem interleaved_reload_torn_read :
    Mem.Installed ⟨2, 2147483647⟩
    ∧ (Sys.run ⟨⟨2, 2147483647⟩, [Call.loadRead (⟨10⟩, none), Call.getStart (goString "c")],
          false⟩ [0, 1, 1, 1, 0])
        = ⟨⟨10, 429496729⟩,
            [Call.loadDone none, Call.getDone (10, true) (some (10, 2147483647))], false⟩
    ∧ ¬ Derived 10 2147483647
    ∧ ¬ (Sys.run ⟨⟨2, 2147483647⟩, [Call.loadRead (⟨10⟩, none), Call.getStart (goString "c")],
          false⟩ [0, 1, 1, 1, 0]).Consistent
    ∧ GetSampleRate ⟨constConfig 10, 2, 2147483647, "x"⟩
        (some (⟨goString "c", ()⟩ : Trace Unit)) = Result.ret (2, true)
    ∧ GetSampleRate ⟨constConfig 10, 10, 429496729, "x"⟩
        (some (⟨goString "c", ()⟩ : Trace Unit)) = Result.ret (10, false) := by
  refine ⟨by decide, ?_, by decide, ?_, ?_, ?_⟩
  · set_option maxRecDepth 100000 in decide
  · set_option maxRecDepth 100000 in decide
  · set_option maxRecDepth 100000 in decide
  · set_option maxRecDepth 100000 in decide

theorem Sys.quiet_of_entry (s : Sys) (hm : s.mem.Installed)
    (hc : ∀ c ∈ s.calls, c.isEntry = true) (hr : ∀ c ∈ s.calls, c.inRange = true) :
    s.Quiet := by
  refine ⟨?_, Or.inr ⟨hm, ?_⟩⟩
  · intro c hmem
    have := hc c hmem
    cases c <;> simp_all [Call.isEntry, Call.Consistent]
  · intro c hmem
    have := hc c hmem
    refine ⟨?_, hr c hmem⟩
    cases c <;> simp_all [Call.isEntry, Call.isIdle]

/-- Calls that do not overlap, each `loadConfigs` and `GetSampleRate` call
making its moves before the next call moves: in any order, from any installed
state and with records of at most 4294967295, every `GetSampleRate` call that
reads `upperBound` reads the bound derived from the `sampleRate` it returns. -/
theorem serial_calls_consistent (s : Sys) (order : List Nat) (hm : s.mem.Installed)
    (hc : ∀ c ∈ s.calls, c.isEntry = true) (hr : ∀ c ∈ s.calls, c.inRange = true) :
    (s.run (serial order)).Consistent :=
  (Sys.quiet_serial order s (Sys.quiet_of_entry s hm hc hr)).1

/-! ## `bytesToUint32be` -/

theorem specBigEndian32_four (a b c d : Byte) :
    specBigEndian32 [a, b, c, d] = a.val * 2 ^ 24 + b.val * 2 ^ 16 + c.val * 2 ^ 8 + d.val := by
  rfl

theorem specEncode_decode (a b c d : Byte) :
    specEncodeBigEndian32 (a.val * 2 ^ 24 + b.val * 2 ^ 16 + c.val * 2 ^ 8 + d.val)
      = [a, b, c, d] := by
  have ha := a.isLt
  have hb := b.isLt
  have hc := c.isLt
  have hd := d.isLt
  simp only [specEncodeBigEndian32, List.cons.injEq, and_true]
  refine ⟨?_, ?_, ?_, ?_⟩ <;> apply Fin.ext <;> simp only [Fin.ofNat, Fin.val_mk] <;> omega

/-- C16: on a slice of four bytes `bytesToUint32be` returns
`b[0]*2^24 + b[1]*2^16 + b[2]*2^8 + b[3]`, a value below `2 ^ 32`; it is the
value whose big-endian encoding is `b`, and on the big-endian encoding of a
32-bit value `x` it returns `x`. -/
theorem bytesToUint32be_bigEndian (b : List Byte) (x : Nat) (hlen : b.length = 4)
    (hx : x < 2 ^ 32) :
    bytesToUint32be b
        = Result.ret ((b.getD 0 0).val * 2 ^ 24 + (b.getD 1 0).val * 2 ^ 16
            + (b.getD 2 0).val * 2 ^ 8 + (b.getD 3 0).val)
      ∧ (b.getD 0 0).val * 2 ^ 24 + (b.getD 1 0).val * 2 ^ 16
            + (b.getD 2 0).val * 2 ^ 8 + (b.getD 3 0).val < 2 ^ 32
      ∧ specEncodeBigEndian32 ((b.getD 0 0).val * 2 ^ 24 + (b.getD 1 0).val * 2 ^ 16
            + (b.getD 2 0).val * 2 ^ 8 + (b.getD 3 0).val) = b
      ∧ (specEncodeBigEndian32 x).length = 4
      ∧ bytesToUint32be (specEncodeBigEndian32 x) = Result.ret x := by
  match b, hlen with
  | [b0, b1, b2, b3], _ =>
    refine ⟨bytesToUint32be_four b0 b1 b2 b3, ?_, specEncode_decode b0 b1 b2 b3, rfl, ?_⟩
    · have h0 := b0.isLt
      have h1 := b1.isLt
      have h2 := b2.isLt
      have h3 := b3.isLt
      simp only [List.getD_cons_zero, List.getD_cons_succ]
      omega
    · rw [specEncodeBigEndian32, bytesToUint32be_four]
      simp only [Fin.ofNat, Fin.val_mk]
      congr 1
      omega

theorem bytesToUint32be_bigEndian_witness :
    ([0xDE, 0xAD, 0xBE, 0xEF] : List Byte).length = 4 ∧ 3735928559 < 2 ^ 32
      ∧ bytesToUint32be [0xDE, 0xAD, 0xBE, 0xEF] = Result.ret 3735928559
      ∧ bytesToUint32be (specEncodeBigEndian32 3735928559) = Result.ret 3735928559 :=
  ⟨rfl, by decide,
    (bytesToUint32be_bigEndian [0xDE, 0xAD, 0xBE, 0xEF] 3735928559 rfl (by decide)).1,
    (bytesToUint32be_bigEndian [0xDE, 0xAD, 0xBE, 0xEF] 3735928559 rfl (by decide)).2.2.2.2⟩

/-! ## `loadConfigs`: what a load depends on -/

/-- The state and log that `loadConfigs` derives from the record `c` of a
successful read. -/
theorem loadConfigs_of_read (d : DeterministicSampler) (c : DetSamplerConfig)
    (hok : d.Config.GetOtherConfig (configKey d) ⟨0⟩ = (c, none)) :
    loadConfigs d
      = (divUint32 MaxUint32 (toUint32 (if c.SampleRate < 1 then 1 else c.SampleRate))).bind
          fun ub => Result.ret
            ⟨{ d with sampleRate := if c.SampleRate < 1 then 1 else c.SampleRate,
                      upperBound := ub }, none,
              if c.SampleRate < 1 then
                [⟨"debug", some ("sample_rate", LogValue.int c.SampleRate),
                  "configured sample rate for deterministic sampler was less than 1; forcing to 1"⟩]
              else []⟩ := by
  by_cases hlt : c.SampleRate < 1
  · simp [loadConfigs, hok, hlt]
  · simp [loadConfigs, hok, hlt]

theorem divUint32_bind_inv {β : Type} (a b : Nat) (f : Nat → β) (l : β)
    (h : (divUint32 a b).bind (fun ub => Result.ret (f ub)) = Result.ret l) :
    b ≠ 0 ∧ l = f (a / b) := by
  by_cases hb : b = 0
  · simp [divUint32, hb, Result.bind] at h
  · simp only [divUint32, hb, if_false, Result.bind, Result.ret.injEq] at h
    exact ⟨hb, h.symm⟩

/-- A load that returns an error was refused by the provider and left the
sampler as it was. -/
theorem loadConfigs_error_inv (d : DeterministicSampler) (l : LoadResult) (e : GoError)
    (h : loadConfigs d = Result.ret l) (he : l.err = some e) :
    (d.Config.GetOtherConfig (configKey d) ⟨0⟩).2 = some e ∧ l = ⟨d, some e, []⟩ := by
  cases hr : (d.Config.GetOtherConfig (configKey d) ⟨0⟩).2 with
  | some e' =>
    have hl : loadConfigs d = Result.ret ⟨d, some e', []⟩ := by simp [loadConfigs, hr]
    rw [hl] at h
    cases h
    simp only [Option.some.injEq] at he
    subst he
    exact ⟨rfl, rfl⟩
  | none =>
    have hp : d.Config.GetOtherConfig (configKey d) ⟨0⟩
        = ((d.Config.GetOtherConfig (configKey d) ⟨0⟩).1, none) := by
      rw [← hr]
    rw [loadConfigs_of_read d _ hp] at h
    obtain ⟨_, hl⟩ := divUint32_bind_inv _ _ _ _ h
    rw [hl] at he
    simp at he

/-- A load that returns no error read a record from the provider. -/
theorem loadConfigs_ok_inv (d : DeterministicSampler) (l : LoadResult)
    (h : loadConfigs d = Result.ret l) (he : l.err = none) :
    (d.Config.GetOtherConfig (configKey d) ⟨0⟩).2 = none := by
  cases hr : (d.Config.GetOtherConfig (configKey d) ⟨0⟩).2 with
  | none => rfl
  | some e' =>
    have hl : loadConfigs d = Result.ret ⟨d, some e', []⟩ := by simp [loadConfigs, hr]
    rw [hl] at h
    cases h
    simp at he

/-- C15: a successful `loadConfigs` installs a state that depends on the
record read alone. From any other previous state that reads the same record
the load succeeds and installs the same `sampleRate` and `upperBound`; loading
again from the state just installed gives that state again; and a failed
reload (the provider answering with an error) followed by the successful one
gives the state of the successful one alone. The provider's answer at a later
call is the `Config` field of the sampler at that call. -/
theorem loadConfigs_history_independent (d1 d2 : DeterministicSampler) (r1 : LoadResult)
    (hrec : d1.Config.GetOtherConfig (configKey d1) ⟨0⟩
      = d2.Config.GetOtherConfig (configKey d2) ⟨0⟩)
    (h1 : loadConfigs d1 = Result.ret r1) (hs : r1.err = none) :
    (∃ r2, loadConfigs d2 = Result.ret r2 ∧ r2.err = none
        ∧ r2.d.sampleRate = r1.d.sampleRate ∧ r2.d.upperBound = r1.d.upperBound)
      ∧ loadConfigs r1.d = Result.ret r1
      ∧ (∀ (c : Config) (e : GoError) (rf : LoadResult),
          loadConfigs { d1 with Config := c } = Result.ret rf → rf.err = some e →
          loadConfigs { rf.d with Config := d1.Config } = Result.ret r1) := by
  obtain ⟨c, hp⟩ : ∃ c, d1.Config.GetOtherConfig (configKey d1) ⟨0⟩ = (c, none) :=
    ⟨(d1.Config.GetOtherConfig (configKey d1) ⟨0⟩).1, by
      rw [← loadConfigs_ok_inv d1 r1 h1 hs]⟩
  have hp2 : d2.Config.GetOtherConfig (configKey d2) ⟨0⟩ = (c, none) := by
    rw [← hrec]; exact hp
  have h1' := h1
  rw [loadConfigs_of_read d1 c hp] at h1'
  obtain ⟨hb, hr1⟩ := divUint32_bind_inv _ _ _ _ h1'
  refine ⟨?_, ?_, ?_⟩
  · rw [loadConfigs_of_read d2 c hp2]
    simp only [divUint32, hb, if_false, Result.bind]
    refine ⟨_, rfl, rfl, ?_, ?_⟩
    · rw [hr1]
    · rw [hr1]
  · have hp' : r1.d.Config.GetOtherConfig (configKey r1.d) ⟨0⟩ = (c, none) := by
      rw [hr1]; exact hp
    rw [loadConfigs_of_read r1.d c hp']
    simp only [divUint32, hb, if_false, Result.bind]
    rw [hr1]
  · intro c' e rf hf he
    obtain ⟨_, hrf⟩ := loadConfigs_error_inv _ rf e hf he
    rw [hrf]
    exact h1

theorem loadConfigs_history_independent_witness :
    (constConfig 10).GetOtherConfig (configKey ⟨constConfig 10, 0, 0, "x"⟩) ⟨0⟩
        = (constConfig 10).GetOtherConfig (configKey ⟨constConfig 10, 2, 2147483647, "x"⟩) ⟨0⟩
      ∧ loadConfigs ⟨constConfig 10, 0, 0, "x"⟩
          = Result.ret ⟨⟨constConfig 10, 10, 429496729, "x"⟩, none, []⟩
      ∧ (∃ r2, loadConfigs ⟨constConfig 10, 2, 2147483647, "x"⟩ = Result.ret r2 ∧ r2.err = none
          ∧ r2.d.sampleRate = 10 ∧ r2.d.upperBound = 429496729)
      ∧ loadConfigs ⟨constConfig 10, 10, 429496729, "x"⟩
          = Result.ret ⟨⟨constConfig 10, 10, 429496729, "x"⟩, none, []⟩
      ∧ loadConfigs { (⟨⟨failingConfig "boom", 0, 0, "x"⟩, some "boom", []⟩ : LoadResult).d with
            Config := constConfig 10 }
          = Result.ret ⟨⟨constConfig 10, 10, 429496729, "x"⟩, none, []⟩ :=
  ⟨rfl, rfl,
    (loadConfigs_history_independent ⟨constConfig 10, 0, 0, "x"⟩
      ⟨constConfig 10, 2, 2147483647, "x"⟩ ⟨⟨constConfig 10, 10, 429496729, "x"⟩, none, []⟩
      rfl rfl rfl).1,
    (loadConfigs_history_independent ⟨constConfig 10, 0, 0, "x"⟩
      ⟨constConfig 10, 2, 2147483647, "x"⟩ ⟨⟨constConfig 10, 10, 429496729, "x"⟩, none, []⟩
      rfl rfl rfl).2.1,
    (loadConfigs_history_independent ⟨constConfig 10, 0, 0, "x"⟩
      ⟨constConfig 10, 2, 2147483647, "x"⟩ ⟨⟨constConfig 10, 10, 429496729, "x"⟩, none, []⟩
      rfl rfl rfl).2.2 (failingConfig "boom") "boom"
      ⟨⟨failingConfig "boom", 0, 0, "x"⟩, some "boom", []⟩ rfl rfl⟩

/-! ## Rates and kept traces -/

/-- C14: keep decisions are monotone in the rate. For rates `M ≤ N` between 1
and 4294967295, every trace that the sampler loaded with the rate `N` keeps is
kept by the sampler loaded with the rate `M`. -/
theorem keep_monotone_in_rate {α : Type} (dM dN : DeterministicSampler) (M N : Int)
    (hM : dM.Config.GetOtherConfig (configKey dM) ⟨0⟩ = (⟨M⟩, none))
    (hN : dN.Config.GetOtherConfig (configKey dN) ⟨0⟩ = (⟨N⟩, none))
    (h1 : 1 ≤ M) (hMN : M ≤ N) (h2 : N ≤ 4294967295) :
    ∃ rM rN, loadConfigs dM = Result.ret rM ∧ loadConfigs dN = Result.ret rN
      ∧ rM.err = none ∧ rN.err = none ∧ rM.d.sampleRate = M ∧ rN.d.sampleRate = N
      ∧ ∀ (tr : Trace α) (rate : Nat),
          GetSampleRate rN.d (some tr) = Result.ret (rate, true) →
          ∃ rate', GetSampleRate rM.d (some tr) = Result.ret (rate', true) := by
  refine ⟨_, _, loadConfigs_in_range dM ⟨M⟩ hM h1 (by simp only; omega),
    loadConfigs_in_range dN ⟨N⟩ hN (by simp only; omega) (by simp only; omega),
    rfl, rfl, rfl, rfl, ?_⟩
  intro tr rate hkeep
  by_cases hle : M ≤ 1
  · exact ⟨1, by simp [GetSampleRate, hle]⟩
  · have hN1 : ¬ N ≤ 1 := by omega
    have hdiv : 4294967295 / N.toNat ≤ 4294967295 / M.toNat :=
      Nat.div_le_div_left (by omega) (by omega)
    simp only [GetSampleRate, hN1, if_false, bytesToUint32be_Sum, Result.bind,
      Result.ret.injEq, Prod.mk.injEq, decide_eq_true_eq] at hkeep
    refine ⟨toUint M, ?_⟩
    simp only [GetSampleRate, hle, if_false, bytesToUint32be_Sum, Result.bind,
      Result.ret.injEq, Prod.mk.injEq, decide_eq_true_eq, true_and]
    exact le_trans hkeep.2 hdiv

theorem keep_monotone_in_rate_witness :
    (1 : Int) ≤ 2 ∧ (2 : Int) ≤ 10 ∧ (10 : Int) ≤ 4294967295 ∧
    ∃ rM rN, loadConfigs (unconfigured (constConfig 2) "x") = Result.ret rM
      ∧ loadConfigs (unconfigured (constConfig 10) "x") = Result.ret rN
      ∧ rM.err = none ∧ rN.err = none ∧ rM.d.sampleRate = 2 ∧ rN.d.sampleRate = 10
      ∧ ∀ (tr : Trace Unit) (rate : Nat),
          GetSampleRate rN.d (some tr) = Result.ret (rate, true) →
          ∃ rate', GetSampleRate rM.d (some tr) = Result.ret (rate', true) :=
  ⟨by decide, by decide, by decide,
    keep_monotone_in_rate (unconfigured (constConfig 2) "x") (unconfigured (constConfig 10) "x")
      2 10 rfl rfl (by decide) (by decide) (by decide)⟩

/-- A bound below `2 ^ 32` accepts the values `0, ..., upperBound`. -/
theorem accepted_card (ub : Nat) (h : ub < 2 ^ 32) : (accepted ub).card = ub + 1 := by
  have e : accepted ub = Finset.range (ub + 1) := by
    ext v
    simp only [accepted, Finset.mem_filter, Finset.mem_range]
    omega
  rw [e, Finset.card_range]

/-- The bound of a rate `n` between 1 and 4294967295 accepts
`⌈2 ^ 32 / n⌉` values, between `2 ^ 32 / n` and `2 ^ 32 / n + 1`. -/
theorem accepted_card_of_rate (n : Nat) (h1 : 1 ≤ n) (h2 : n ≤ 4294967295) :
    (accepted (4294967295 / n)).card = ⌈(2 ^ 32 : ℚ) / (n : ℚ)⌉₊
      ∧ 2 ^ 32 ≤ (accepted (4294967295 / n)).card * n
      ∧ (accepted (4294967295 / n)).card * n < 2 ^ 32 + n := by
  have hle : 4294967295 / n ≤ 4294967295 := Nat.div_le_self _ _
  have hcard := accepted_card (4294967295 / n) (by omega)
  have hmul : 4294967295 / n * n ≤ 4294967295 := Nat.div_mul_le_self _ _
  have e : (4294967295 / n + 1) * n = 4294967295 / n * n + n := by ring
  have hge : 2 ^ 32 ≤ (4294967295 / n + 1) * n := by
    have hdm := Nat.div_add_mod 4294967295 n
    have hmod : 4294967295 % n < n := Nat.mod_lt _ (by omega)
    have e' : n * (4294967295 / n) = 4294967295 / n * n := Nat.mul_comm _ _
    rw [e]
    omega
  have hlt : (4294967295 / n + 1) * n < 2 ^ 32 + n := by
    rw [e]
    omega
  have hn0 : (0 : ℚ) < (n : ℚ) := by exact_mod_cast h1
  rw [hcard]
  refine ⟨?_, hge, hlt⟩
  symm
  rw [Nat.ceil_eq_iff (Nat.succ_ne_zero (4294967295 / n))]
  constructor
  · rw [Nat.succ_sub_one, lt_div_iff₀ hn0]
    have : 4294967295 / n * n < 2 ^ 32 := by omega
    exact_mod_cast this
  · rw [div_le_iff₀ hn0]
    exact_mod_cast hge

theorem fraction_bounds (c n P : ℚ) (hn : 0 < n) (hP : 0 < P) (hge : P ≤ c * n)
    (hlt : c * n < P + n) : 1 / n ≤ c / P ∧ c / P < 1 / n + 1 / P := by
  constructor
  · rw [div_le_div_iff₀ hn hP]
    linarith
  · rw [div_add_div _ _ hn.ne' hP.ne', div_lt_div_iff₀ hP (mul_pos hn hP)]
    have h := mul_lt_mul_of_pos_right hlt hP
    linarith

/-- C13: for a rate `N` between 1 and 4294967295 the load installs the bound
`4294967295 / N`, and the number of 32-bit hash values that this bound accepts
is `⌈2 ^ 32 / N⌉`; the accepted fraction of the `2 ^ 32` hash values is at
least `1 / N` and strictly less than `1 / N + 2 ^ (-32)`. -/
theorem accepted_fraction_of_rate (d : DeterministicSampler) (N : Int)
    (hok : d.Config.GetOtherConfig (configKey d) ⟨0⟩ = (⟨N⟩, none))
    (h1 : 1 ≤ N) (h2 : N ≤ 4294967295) :
    ∃ r, loadConfigs d = Result.ret r ∧ r.err = none ∧ r.d.sampleRate = N
      ∧ r.d.upperBound = 4294967295 / N.toNat
      ∧ (∀ v, v ∈ accepted r.d.upperBound ↔ v < 2 ^ 32 ∧ v ≤ 4294967295 / N.toNat)
      ∧ (accepted r.d.upperBound).card = ⌈(2 ^ 32 : ℚ) / (N : ℚ)⌉₊
      ∧ 1 / (N : ℚ) ≤ ((accepted r.d.upperBound).card : ℚ) / 2 ^ 32
      ∧ ((accepted r.d.upperBound).card : ℚ) / 2 ^ 32 < 1 / (N : ℚ) + 1 / 2 ^ 32 := by
  refine ⟨_, loadConfigs_in_range d ⟨N⟩ hok h1 (by simp only; omega), rfl, rfl, rfl, ?_⟩
  obtain ⟨n, rfl⟩ := Int.eq_ofNat_of_zero_le (by omega : 0 ≤ N)
  simp only [Int.toNat_ofNat, Int.cast_natCast]
  obtain ⟨hceil, hge, hlt⟩ := accepted_card_of_rate n (by omega) (by omega)
  have hn0 : (0 : ℚ) < (n : ℚ) := by
    have : 0 < n := by omega
    exact_mod_cast this
  have hgeq : (2 ^ 32 : ℚ) ≤ ((accepted (4294967295 / n)).card : ℚ) * (n : ℚ) := by
    exact_mod_cast hge
  have hltq : ((accepted (4294967295 / n)).card : ℚ) * (n : ℚ) < 2 ^ 32 + (n : ℚ) := by
    exact_mod_cast hlt
  have hP : (0 : ℚ) < 2 ^ 32 := by positivity
  obtain ⟨hf1, hf2⟩ := fraction_bounds _ _ _ hn0 hP hgeq hltq
  refine ⟨?_, hceil, hf1, hf2⟩
  intro v
  simp only [accepted, Finset.mem_filter, Finset.mem_range]

theorem accepted_fraction_of_rate_witness :
    (1 : Int) ≤ 10 ∧ (10 : Int) ≤ 4294967295 ∧
    ∃ r, loadConfigs (unconfigured (constConfig 10) "x") = Result.ret r ∧ r.err = none
      ∧ r.d.sampleRate = 10
      ∧ r.d.upperBound = 4294967295 / (10 : Int).toNat
      ∧ (∀ v, v ∈ accepted r.d.upperBound ↔ v < 2 ^ 32 ∧ v ≤ 4294967295 / (10 : Int).toNat)
      ∧ (accepted r.d.upperBound).card = ⌈(2 ^ 32 : ℚ) / ((10 : Int) : ℚ)⌉₊
      ∧ 1 / ((10 : Int) : ℚ) ≤ ((accepted r.d.upperBound).card : ℚ) / 2 ^ 32
      ∧ ((accepted r.d.upperBound).card : ℚ) / 2 ^ 32 < 1 / ((10 : Int) : ℚ) + 1 / 2 ^ 32 :=
  ⟨by decide, by decide,
    accepted_fraction_of_rate (unconfigured (constConfig 10) "x") 10 rfl (by decide) (by decide)⟩

/-! ## `Start` and the reload callback -/

/-- A reload whose `loadConfigs` returns an error: the callback returns, the
sampler is as it was, and `GetSampleRate` answers as before on every trace. -/
theorem reloadCallback_of_error {α : Type} (d : DeterministicSampler) (l : LoadResult)
    (e : GoError) (h : loadConfigs d = Result.ret l) (he : l.err = some e) :
    ∃ r, reloadCallback d = Result.ret r ∧ r.d = d
      ∧ ∀ trace : Option (Trace α), GetSampleRate r.d trace = GetSampleRate d trace := by
  obtain ⟨_, hl⟩ := loadConfigs_error_inv d l e h he
  subst hl
  refine ⟨⟨d, [⟨"debug", none, "reloading deterministic sampler config"⟩] ++ [] ++
      [⟨"error", some ("error", LogValue.err e),
        "failed to reload deterministic sampler configs"⟩]⟩, ?_, rfl, fun _ => rfl⟩
  simp only [reloadCallback, h, Result.bind]

/-- A reload whose `loadConfigs` returns no error installs what it loaded. -/
theorem reloadCallback_of_ok (d : DeterministicSampler) (l : LoadResult)
    (h : loadConfigs d = Result.ret l) (he : l.err = none) :
    ∃ r, reloadCallback d = Result.ret r ∧ r.d = l.d := by
  refine ⟨⟨l.d, [⟨"debug", none, "reloading deterministic sampler config"⟩] ++ l.log⟩, ?_, rfl⟩
  simp only [reloadCallback, h, Result.bind, he]

/-- The callback panics exactly when its `loadConfigs` does. -/
theorem reloadCallback_panic_iff (d : DeterministicSampler) (msg : String) :
    reloadCallback d = Result.panic msg ↔ loadConfigs d = Result.panic msg := by
  cases h : loadConfigs d with
  | panic m => simp [reloadCallback, h, Result.bind]
  | ret l =>
    cases he : l.err with
    | none => simp [reloadCallback, h, Result.bind, he]
    | some e => simp [reloadCallback, h, Result.bind, he]

/-- The outcomes of `Start`, by the outcome of its `loadConfigs`: an error is
returned as it is, with no callback registered and the sampler as it was; a
load without error registers the one reload callback and returns nil; a panic
of the load is a panic of `Start`. -/
theorem Start_outcomes (d : DeterministicSampler) :
    (∀ e, (∃ r, Start d = Result.ret r ∧ r.err = some e)
        ↔ (∃ l, loadConfigs d = Result.ret l ∧ l.err = some e))
      ∧ (∀ r e, Start d = Result.ret r → r.err = some e →
          r.registered = [] ∧ r.d = d)
      ∧ (∀ l, loadConfigs d = Result.ret l → l.err = none →
          ∃ r, Start d = Result.ret r ∧ r.err = none ∧ r.d = l.d
            ∧ r.registered = [reloadCallback])
      ∧ (∀ msg, loadConfigs d = Result.panic msg → Start d = Result.panic msg) := by
  cases h : loadConfigs d with
  | panic m => simp [Start, h, Result.bind]
  | ret l =>
    cases he : l.err with
    | none =>
      refine ⟨?_, ?_, ?_, ?_⟩
      · intro e
        simp [Start, h, Result.bind, he]
      · intro r e hr hre
        simp only [Start, h, Result.bind, he, Result.ret.injEq] at hr
        rw [← hr] at hre
        simp at hre
      · intro l' hl' _
        simp only [Result.ret.injEq] at hl'
        subst hl'
        exact ⟨⟨l.d, none,
          [⟨"debug", none, "Starting DeterministicSampler"⟩] ++ l.log ++
            [⟨"debug", none, "Finished starting DeterministicSampler"⟩], [reloadCallback]⟩,
          by simp only [Start, h, Result.bind, he], rfl, rfl, rfl⟩
      · intro msg hm
        simp at hm
    | some e =>
      obtain ⟨_, hl⟩ := loadConfigs_error_inv d l e h he
      subst hl
      refine ⟨?_, ?_, ?_, ?_⟩
      · intro e'
        simp [Start, h, Result.bind]
      · intro r e' hr _
        simp only [Start, h, Result.bind, Result.ret.injEq] at hr
        rw [← hr]
        exact ⟨rfl, rfl⟩
      · intro l' hl' hn
        simp only [Result.ret.injEq] at hl'
        subst hl'
        simp at hn
      · intro msg hm
        simp at hm

/-- C11 fails on the code when the record read by a reload holds
`SampleRate = 4294967296`. `Start` on a sampler whose record holds the rate 10
registers the reload callback; a later run of that callback, on the sampler
then in place and with the record changed to 4294967296, does not return: the
division of `loadConfigs` panics and the panic leaves the callback. -/
theorem reloadCallback_divide_by_zero :
    (∃ r, Start (unconfigured (constConfig 10) "x") = Result.ret r ∧ r.err = none
        ∧ r.d.sampleRate = 10 ∧ r.d.upperBound = 429496729
        ∧ r.registered = [reloadCallback])
      ∧ isGoInt 4294967296
      ∧ reloadCallback ⟨constConfig 4294967296, 10, 429496729, "x"⟩
          = Result.panic "runtime error: integer divide by zero"
      ∧ ∀ r, reloadCallback ⟨constConfig 4294967296, 10, 429496729, "x"⟩ ≠ Result.ret r := by
  refine ⟨⟨_, rfl, rfl, rfl, rfl, rfl⟩, by decide, rfl, ?_⟩
  intro r h
  have hp : reloadCallback ⟨constConfig 4294967296, 10, 429496729, "x"⟩
      = Result.panic "runtime error: integer divide by zero" := rfl
  rw [hp] at h
  cases h

/-- C12 fails on the code when the record read by `Start` holds
`SampleRate = 4294967296`: the initial `loadConfigs` panics in its division,
and `Start` neither returns an error nor registers a callback and returns
nil. -/
theorem Start_divide_by_zero :
    isGoInt 4294967296
      ∧ Start (unconfigured (constConfig 4294967296) "x")
          = Result.panic "runtime error: integer divide by zero"
      ∧ ∀ r, Start (unconfigured (constConfig 4294967296) "x") ≠ Result.ret r := by
  refine ⟨by decide, rfl, ?_⟩
  intro r h
  have hp : Start (unconfigured (constConfig 4294967296) "x")
      = Result.panic "runtime error: integer divide by zero" := rfl
  rw [hp] at h
  cases h

/-! ## Interleaved calls: epochs -/

theorem Sys.put_getElem? (s : Sys) (i j : Nat) (m : Mem) (c' c : Call)
    (h : (s.put i m c').calls[j]? = some c) :
    (j = i ∧ c = c') ∨ (j ≠ i ∧ s.calls[j]? = some c) := by
  simp only [Sys.put, List.getElem?_set] at h
  by_cases hij : i = j
  · rw [if_pos hij] at h
    split at h
    · simp only [Option.some.injEq] at h
      exact Or.inl ⟨hij.symm, h.symm⟩
    · simp at h
  · rw [if_neg hij] at h
    exact Or.inr ⟨fun e => hij e.symm, h⟩

/-- What the epochs tell of a call stays true when another call moves. -/
theorem CallOk.frame (m m' : Mem) (e e' : Epochs) (hist hist' : Nat → Int) (j : Nat)
    (c : Call) (h : CallOk m e hist j c)
    (hrate : 1 ≤ m.sampleRate → 1 ≤ m'.sampleRate) (hnow : e.now ≤ e'.now)
    (hhist : ∀ k, k ≤ e.now → hist' k = hist k)
    (hre : e'.rateEpoch j = e.rateEpoch j) (hbe : e'.boundEpoch j = e.boundEpoch j) :
    CallOk m' e' hist' j c := by
  cases c with
  | loadRead r => exact h
  | loadRate =>
    simp only [CallOk] at h ⊢
    omega
  | loadDone err => trivial
  | getStart id => trivial
  | getHashed v =>
    simp only [CallOk] at h ⊢
    exact hrate h
  | getRate v rate =>
    simp only [CallOk] at h ⊢
    obtain ⟨h1, h2, h3, h4⟩ := h
    refine ⟨hrate h1, ?_, h3, ?_⟩
    · rw [hre, hhist _ h4]
      exact h2
    · rw [hre]
      omega
  | getDone res seen =>
    cases seen with
    | none => trivial
    | some p =>
      obtain ⟨rate, bound⟩ := p
      simp only [CallOk] at h ⊢
      rw [hre, hbe]
      exact h

/-- The invariant after a move that leaves the call `i` at `c'`. -/
theorem Sys.EpochInv.put (s : Sys) (e e' : Epochs) (hist hist' : Nat → Int)
    (h : s.EpochInv e hist) (i : Nat) (m' : Mem) (c' : Call)
    (h1 : m'.sampleRate = hist' e'.now)
    (h2 : Mem.Installed ⟨hist' e'.bound, m'.upperBound⟩)
    (h3 : e'.bound ≤ e'.now)
    (h4 : ∀ k, 1 ≤ k → k ≤ e'.now → 1 ≤ hist' k ∧ hist' k ≤ 4294967295)
    (h5 : CallOk m' e' hist' i c')
    (hrate : 1 ≤ s.mem.sampleRate → 1 ≤ m'.sampleRate) (hnow : e.now ≤ e'.now)
    (hhist : ∀ k, k ≤ e.now → hist' k = hist k)
    (hre : ∀ j, j ≠ i → e'.rateEpoch j = e.rateEpoch j)
    (hbe : ∀ j, j ≠ i → e'.boundEpoch j = e.boundEpoch j) :
    (s.put i m' c').EpochInv e' hist' := by
  refine ⟨rfl, h1, h2, h3, h4, ?_⟩
  intro j c hj
  rcases Sys.put_getElem? s i j m' c' c hj with ⟨hji, hcc⟩ | ⟨hji, hold⟩
  · rw [hji, hcc]
    exact h5
  · exact CallOk.frame s.mem m' e e' hist hist' j c (h.calls_ok j c hold) hrate hnow hhist
      (hre j hji) (hbe j hji)

/-- The invariant after a move that changes neither the fields nor the
epochs. -/
theorem Sys.EpochInv.put_same (s : Sys) (e : Epochs) (hist : Nat → Int)
    (h : s.EpochInv e hist) (i : Nat) (c' : Call) (h5 : CallOk s.mem e hist i c') :
    (s.put i s.mem c').EpochInv e hist :=
  Sys.EpochInv.put s e e hist hist h i s.mem c' h.rate_eq h.bound_ok h.bound_le h.hist_range h5
    (fun x => x) (Nat.le_refl _) (fun _ _ => rfl) (fun _ _ => rfl) (fun _ _ => rfl)

/-- Every move keeps the invariant, with the value of a new epoch recorded
when the move is a write of `sampleRate`. -/
theorem Sys.EpochInv.step (s : Sys) (e : Epochs) (hist : Nat → Int) (h : s.EpochInv e hist)
    (i : Nat) : ∃ hist', (s.step i).EpochInv (e.step s i) hist' := by
  have hcr := h.running
  cases hc : s.calls[i]? with
  | none =>
    have he : e.step s i = e := by simp [Epochs.step, hcr, hc]
    rw [Sys.step_none s i hc, he]
    exact ⟨hist, h⟩
  | some c =>
    have hok := h.calls_ok i c hc
    cases c with
    | loadRead r =>
      cases hr : r.2 with
      | some err =>
        have h1 : Call.step s.mem (Call.loadRead r)
            = Result.ret (s.mem, Call.loadDone (some err)) := by
          simp [Call.step, hr]
        have he : e.step s i = e := by simp [Epochs.step, hcr, hc, hr]
        rw [Sys.step_ret s i _ _ _ hcr hc h1, he]
        exact ⟨hist, Sys.EpochInv.put_same s e hist h i _ trivial⟩
      | none =>
        obtain ⟨n, hn⟩ : ∃ n : Int, n = if r.1.SampleRate < 1 then 1 else r.1.SampleRate :=
          ⟨_, rfl⟩
        have h1 : Call.step s.mem (Call.loadRead r)
            = Result.ret (⟨n, s.mem.upperBound⟩, Call.loadRate) := by
          simp [Call.step, hr, hn]
        have he : e.step s i = { e with now := e.now + 1 } := by
          simp [Epochs.step, hcr, hc, hr]
        have hrange : r.1.SampleRate ≤ 4294967295 := by
          simpa [CallOk, Call.inRange, hr] using hok
        have hn1 : 1 ≤ n ∧ n ≤ 4294967295 := by
          rw [hn]; split <;> omega
        rw [Sys.step_ret s i _ _ _ hcr hc h1, he]
        refine ⟨Function.update hist (e.now + 1) n, ?_⟩
        have hkeep : ∀ k, k ≤ e.now → Function.update hist (e.now + 1) n k = hist k := by
          intro k hk
          exact Function.update_noteq (by omega) _ _
        refine Sys.EpochInv.put s e _ hist _ h i _ _ ?_ ?_ ?_ ?_ ?_ (fun _ => hn1.1)
          (Nat.le_succ _) hkeep (fun _ _ => rfl) (fun _ _ => rfl)
        · show n = Function.update hist (e.now + 1) n (e.now + 1)
          rw [Function.update_same]
        · show Mem.Installed ⟨Function.update hist (e.now + 1) n e.bound, s.mem.upperBound⟩
          rw [hkeep _ h.bound_le]
          exact h.bound_ok
        · exact Nat.le_succ_of_le h.bound_le
        · intro k hk1 hk2
          by_cases hk : k = e.now + 1
          · rw [hk, Function.update_same]
            exact hn1
          · rw [hkeep k (by
              have : k ≤ e.now + 1 := hk2
              omega)]
            exact h.hist_range k hk1 (by
              have : k ≤ e.now + 1 := hk2
              omega)
        · show 1 ≤ e.now + 1
          omega
    | loadRate =>
      have hnow : 1 ≤ e.now := hok
      obtain ⟨hr1, hr2⟩ := h.hist_range e.now hnow (Nat.le_refl _)
      rw [← h.rate_eq] at hr1 hr2
      obtain ⟨hu, hz⟩ := toUint32_of_lt s.mem.sampleRate hr1 (by omega)
      have h1 : Call.step s.mem Call.loadRate
          = Result.ret (⟨s.mem.sampleRate, MaxUint32 / toUint32 s.mem.sampleRate⟩,
              Call.loadDone none) := by
        simp [Call.step, divUint32, hz, Result.bind]
      have he : e.step s i = { e with bound := e.now } := by
        simp [Epochs.step, hcr, hc, hz]
      rw [Sys.step_ret s i _ _ _ hcr hc h1, he]
      refine ⟨hist, Sys.EpochInv.put s e _ hist hist h i _ _ h.rate_eq ?_ (Nat.le_refl _)
        h.hist_range trivial (fun x => x) (Nat.le_refl _) (fun _ _ => rfl) (fun _ _ => rfl)
        (fun _ _ => rfl)⟩
      show Mem.Installed ⟨hist e.now, MaxUint32 / toUint32 s.mem.sampleRate⟩
      rw [← h.rate_eq, hu]
      exact Or.inr ⟨hr1, hr2, rfl⟩
    | loadDone err =>
      have he : e.step s i = e := by simp [Epochs.step, hcr, hc]
      rw [Sys.step_ret s i _ (Call.loadDone err) s.mem hcr hc rfl, Sys.put_self s i _ hcr hc, he]
      exact ⟨hist, h⟩
    | getStart id =>
      have he : e.step s i = e := by simp [Epochs.step, hcr, hc]
      by_cases hle : s.mem.sampleRate ≤ 1
      · have h1 : Call.step s.mem (Call.getStart id)
            = Result.ret (s.mem, Call.getDone (1, true) none) := by
          simp [Call.step, hle]
        rw [Sys.step_ret s i _ _ _ hcr hc h1, he]
        exact ⟨hist, Sys.EpochInv.put_same s e hist h i _ trivial⟩
      · have h1 : Call.step s.mem (Call.getStart id)
            = Result.ret (s.mem,
                Call.getHashed (specBigEndian32 (Sha1.Sum (id ++ shardingSalt)))) := by
          simp [Call.step, hle, bytesToUint32be_Sum, Result.bind]
        rw [Sys.step_ret s i _ _ _ hcr hc h1, he]
        refine ⟨hist, Sys.EpochInv.put_same s e hist h i _ ?_⟩
        show 1 ≤ s.mem.sampleRate
        omega
    | getHashed v =>
      have hge : 1 ≤ s.mem.sampleRate := hok
      have he : e.step s i = { e with rateEpoch := Function.update e.rateEpoch i e.now } := by
        simp [Epochs.step, hcr, hc]
      rw [Sys.step_ret s i _ (Call.getRate v s.mem.sampleRate) s.mem hcr hc rfl, he]
      refine ⟨hist, Sys.EpochInv.put s e _ hist hist h i _ _ h.rate_eq h.bound_ok h.bound_le
        h.hist_range ?_ (fun x => x) (Nat.le_refl _) (fun _ _ => rfl) ?_ (fun _ _ => rfl)⟩
      · show 1 ≤ s.mem.sampleRate
          ∧ s.mem.sampleRate = hist (Function.update e.rateEpoch i e.now i)
          ∧ 1 ≤ s.mem.sampleRate ∧ Function.update e.rateEpoch i e.now i ≤ e.now
        rw [Function.update_same]
        exact ⟨hge, h.rate_eq, hge, Nat.le_refl _⟩
      · intro j hj
        exact Function.update_noteq hj _ _
    | getRate v rate =>
      obtain ⟨_, hrate, hr1, _⟩ : 1 ≤ s.mem.sampleRate ∧ rate = hist (e.rateEpoch i)
          ∧ 1 ≤ rate ∧ e.rateEpoch i ≤ e.now := hok
      have he : e.step s i
          = { e with boundEpoch := Function.update e.boundEpoch i e.bound } := by
        simp [Epochs.step, hcr, hc]
      rw [Sys.step_ret s i _
        (Call.getDone (toUint rate, decide (v ≤ s.mem.upperBound))
          (some (rate, s.mem.upperBound))) s.mem hcr hc rfl, he]
      refine ⟨hist, Sys.EpochInv.put s e _ hist hist h i _ _ h.rate_eq h.bound_ok h.bound_le
        h.hist_range ?_ (fun x => x) (Nat.le_refl _) (fun _ _ => rfl) (fun _ _ => rfl) ?_⟩
      · show toUint rate = toUint rate
          ∧ (e.rateEpoch i = Function.update e.boundEpoch i e.bound i
              → Derived rate s.mem.upperBound)
        rw [Function.update_same]
        refine ⟨rfl, ?_⟩
        intro hsame
        rcases h.bound_ok with ⟨h0, _⟩ | hd
        · have : hist e.bound = 0 := h0
          rw [← hsame, ← hrate] at this
          omega
        · have hd' : Derived (hist e.bound) s.mem.upperBound := hd
          rw [← hsame, ← hrate] at hd'
          exact hd'
      · intro j hj
        exact Function.update_noteq hj _ _
    | getDone res seen =>
      have he : e.step s i = e := by simp [Epochs.step, hcr, hc]
      rw [Sys.step_ret s i _ (Call.getDone res seen) s.mem hcr hc rfl,
        Sys.put_self s i _ hcr hc, he]
      exact ⟨hist, h⟩

theorem Sys.EpochInv.run (sched : List Nat) (s : Sys) (e : Epochs) (hist : Nat → Int)
    (h : s.EpochInv e hist) : ∃ hist', (s.run sched).EpochInv (s.epochs e sched) hist' := by
  induction sched generalizing s e hist with
  | nil => exact ⟨hist, h⟩
  | cons i rest ih =>
    obtain ⟨hist1, h1⟩ := Sys.EpochInv.step s e hist h i
    have hrun : s.run (i :: rest) = (s.step i).run rest := by
      simp [Sys.run]
    rw [hrun]
    exact ih (s.step i) (e.step s i) hist1 h1

theorem Sys.EpochInv.start (s : Sys) (hcr : s.crashed = false) (hm : s.mem.Installed)
    (hc : ∀ c ∈ s.calls, c.isEntry = true) (hr : ∀ c ∈ s.calls, c.inRange = true) :
    s.EpochInv Epochs.start (fun _ => s.mem.sampleRate) := by
  refine ⟨hcr, rfl, hm, Nat.le_refl _, ?_, ?_⟩
  · intro k hk1 hk2
    have : k ≤ 0 := hk2
    omega
  · intro i c hi
    have hmem := List.getElem?_mem hi
    have hent := hc c hmem
    have hrng := hr c hmem
    cases c with
    | loadRead r => exact hrng
    | getStart id => trivial
    | loadRate => simp [Call.isEntry] at hent
    | loadDone err => simp [Call.isEntry] at hent
    | getHashed v => simp [Call.isEntry] at hent
    | getRate v rate => simp [Call.isEntry] at hent
    | getDone res seen => simp [Call.isEntry] at hent

theorem Sys.run_crashed (sched : List Nat) (s : Sys) (h : s.crashed = true) :
    s.run sched = s := by
  induction sched with
  | nil => rfl
  | cons i rest ih =>
    have hrun : s.run (i :: rest) = (s.step i).run rest := by
      simp [Sys.run]
    rw [hrun, Sys.step_crashed s i h]
    exact ih

/-- C10, amended: under any interleaving of `GetSampleRate` calls with each
other and with `loadConfigs` calls (records of at most 4294967295), from any
installed state, a `GetSampleRate` call that has read `sampleRate` and
`upperBound` at line 74 in the same epoch, that is with no write of
`sampleRate` between its read of `sampleRate` and the write of the
`upperBound` it reads, returns the rate it read and decided with the bound
derived from that rate, `4294967295 / rate`. -/
theorem same_epoch_consistent (s : Sys) (sched : List Nat) (i : Nat) (res : Nat × Bool)
    (rate : Int) (bound : Nat) (hm : s.mem.Installed)
    (hc : ∀ c ∈ s.calls, c.isEntry = true) (hr : ∀ c ∈ s.calls, c.inRange = true)
    (hdone : (s.run sched).calls[i]? = some (Call.getDone res (some (rate, bound))))
    (hsame : (s.epochs Epochs.start sched).rateEpoch i
      = (s.epochs Epochs.start sched).boundEpoch i) :
    (res.1 : Int) = rate ∧ 1 ≤ rate ∧ rate ≤ 4294967295
      ∧ bound = 4294967295 / rate.toNat ∧ Derived rate bound := by
  by_cases hcr : s.crashed = true
  · rw [Sys.run_crashed sched s hcr] at hdone
    have := hc _ (List.getElem?_mem hdone)
    simp [Call.isEntry] at this
  · have hcr' : s.crashed = false := by simpa using hcr
    obtain ⟨hist, hinv⟩ := Sys.EpochInv.run sched s Epochs.start _
      (Sys.EpochInv.start s hcr' hm hc hr)
    obtain ⟨hres, hder⟩ : res.1 = toUint rate
        ∧ ((s.epochs Epochs.start sched).rateEpoch i
            = (s.epochs Epochs.start sched).boundEpoch i → Derived rate bound) :=
      hinv.calls_ok i _ hdone
    have hd := hder hsame
    obtain ⟨h1, h2, h3⟩ := hd
    refine ⟨?_, h1, h2, h3, h1, h2, h3⟩
    rw [hres, toUint_of_nonneg rate (by omega) ⟨by omega, by omega⟩]
    exact Int.toNat_of_nonneg (by omega)

theorem same_epoch_consistent_witness :
    Mem.Installed ⟨2, 2147483647⟩
      ∧ (∀ c ∈ [Call.loadRead (⟨10⟩, none), Call.getStart (goString "c")], c.isEntry = true)
      ∧ (∀ c ∈ [Call.loadRead (⟨10⟩, none), Call.getStart (goString "c")], c.inRange = true)
      ∧ (Sys.run ⟨⟨2, 2147483647⟩,
            [Call.loadRead (⟨10⟩, none), Call.getStart (goString "c")], false⟩
            [0, 1, 1, 0, 1]).calls[1]?
          = some (Call.getDone (10, false) (some (10, 429496729)))
      ∧ (Sys.epochs ⟨⟨2, 2147483647⟩,
            [Call.loadRead (⟨10⟩, none), Call.getStart (goString "c")], false⟩
            Epochs.start [0, 1, 1, 0, 1]).rateEpoch 1
          = (Sys.epochs ⟨⟨2, 2147483647⟩,
            [Call.loadRead (⟨10⟩, none), Call.getStart (goString "c")], false⟩
            Epochs.start [0, 1, 1, 0, 1]).boundEpoch 1
      ∧ (((10, false) : Nat × Bool).1 : Int) = 10 ∧ (1 : Int) ≤ 10 ∧ (10 : Int) ≤ 4294967295
      ∧ 429496729 = 4294967295 / (10 : Int).toNat ∧ Derived 10 429496729 :=
  ⟨by decide, by decide, by decide,
    by set_option maxRecDepth 100000 in decide,
    by set_option maxRecDepth 100000 in decide,
    same_epoch_consistent
      ⟨⟨2, 2147483647⟩, [Call.loadRead (⟨10⟩, none), Call.getStart (goString "c")], false⟩
      [0, 1, 1, 0, 1] 1 (10, false) 10 429496729 (by decide) (by decide) (by decide)
      (by set_option maxRecDepth 100000 in decide)
      (by set_option maxRecDepth 100000 in decide)⟩

/-- The torn reads are reads in different epochs. In the schedule where the
call runs between the two writes of the reload it reads `sampleRate` in the
epoch 1 and an `upperBound` of the epoch 0; in the schedule where the two
writes fall between its two reads it reads `sampleRate` in the epoch 0 and an
`upperBound` of the epoch 1, and returns the old rate decided with the new
bound. -/
theorem torn_reads_epochs :
    (Sys.epochs ⟨⟨2, 2147483647⟩,
        [Call.loadRead (⟨10⟩, none), Call.getStart (goString "c")], false⟩
        Epochs.start [0, 1, 1, 1, 0]).rateEpoch 1 = 1
      ∧ (Sys.epochs ⟨⟨2, 2147483647⟩,
        [Call.loadRead (⟨10⟩, none), Call.getStart (goString "c")], false⟩
        Epochs.start [0, 1, 1, 1, 0]).boundEpoch 1 = 0
      ∧ (Sys.epochs ⟨⟨2, 2147483647⟩,
        [Call.loadRead (⟨10⟩, none), Call.getStart (goString "c")], false⟩
        Epochs.start [1, 1, 0, 0, 1]).rateEpoch 1 = 0
      ∧ (Sys.epochs ⟨⟨2, 2147483647⟩,
        [Call.loadRead (⟨10⟩, none), Call.getStart (goString "c")], false⟩
        Epochs.start [1, 1, 0, 0, 1]).boundEpoch 1 = 1
      ∧ (Sys.run ⟨⟨2, 2147483647⟩,
            [Call.loadRead (⟨10⟩, none), Call.getStart (goString "c")], false⟩
            [1, 1, 0, 0, 1]).calls[1]?
          = some (Call.getDone (2, false) (some (2, 429496729))) := by
  refine ⟨?_, ?_, ?_, ?_, ?_⟩ <;> set_option maxRecDepth 100000 in decide

/-! ## Interleaved calls that write nothing -/

theorem Call.step_writesNothing (m m' : Mem) (c c' : Call) (h : c.writesNothing = true)
    (hs : Call.step m c = Result.ret (m', c')) : m' = m ∧ c'.writesNothing = true := by
  cases c with
  | loadRead r =>
    cases hr : r.2 with
    | none => simp [Call.writesNothing, hr] at h
    | some err =>
      simp only [Call.step, hr, Result.ret.injEq, Prod.mk.injEq] at hs
      exact ⟨hs.1.symm, by rw [← hs.2]; rfl⟩
  | loadRate => simp [Call.writesNothing] at h
  | loadDone err =>
    simp only [Call.step, Result.ret.injEq, Prod.mk.injEq] at hs
    exact ⟨hs.1.symm, by rw [← hs.2]; rfl⟩
  | getStart id =>
    by_cases hle : m.sampleRate ≤ 1
    · simp only [Call.step, hle, if_true, Result.ret.injEq, Prod.mk.injEq] at hs
      exact ⟨hs.1.symm, by rw [← hs.2]; rfl⟩
    · simp only [Call.step, hle, if_false, bytesToUint32be_Sum, Result.bind, Result.ret.injEq,
        Prod.mk.injEq] at hs
      exact ⟨hs.1.symm, by rw [← hs.2]; rfl⟩
  | getHashed v =>
    simp only [Call.step, Result.ret.injEq, Prod.mk.injEq] at hs
    exact ⟨hs.1.symm, by rw [← hs.2]; rfl⟩
  | getRate v rate =>
    simp only [Call.step, Result.ret.injEq, Prod.mk.injEq] at hs
    exact ⟨hs.1.symm, by rw [← hs.2]; rfl⟩
  | getDone res seen =>
    simp only [Call.step, Result.ret.injEq, Prod.mk.injEq] at hs
    exact ⟨hs.1.symm, by rw [← hs.2]; rfl⟩

theorem Sys.step_calls_writeNothing (s : Sys) (i : Nat)
    (hw : ∀ c ∈ s.calls, c.writesNothing = true) :
    ∀ c ∈ (s.step i).calls, c.writesNothing = true := by
  by_cases hcr : s.crashed = true
  · rw [Sys.step_crashed s i hcr]; exact hw
  have hcr' : s.crashed = false := by simpa using hcr
  cases hc : s.calls[i]? with
  | none => rw [Sys.step_none s i hc]; exact hw
  | some c =>
    cases hs : Call.step s.mem c with
    | panic msg =>
      rw [Sys.step_panic s i c msg hcr' hc hs]
      exact hw
    | ret p =>
      obtain ⟨m', c'⟩ := p
      rw [Sys.step_ret s i c c' m' hcr' hc hs]
      intro x hx
      rcases List.mem_or_eq_of_mem_set hx with h | h
      · exact hw x h
      · rw [h]
        exact (Call.step_writesNothing s.mem m' c c' (hw c (List.getElem?_mem hc)) hs).2

theorem Epochs.step_unwritten (s : Sys) (e : Epochs) (i : Nat) (he : e.Unwritten)
    (hw : ∀ c ∈ s.calls, c.writesNothing = true) : (e.step s i).Unwritten := by
  obtain ⟨h1, h2, h3, h4⟩ := he
  by_cases hcr : s.crashed = true
  · simp only [Epochs.step, hcr, if_true]
    exact ⟨h1, h2, h3, h4⟩
  have hcr' : s.crashed = false := by simpa using hcr
  cases hc : s.calls[i]? with
  | none =>
    simp only [Epochs.step, hcr', hc]
    exact ⟨h1, h2, h3, h4⟩
  | some c =>
    have hwc := hw c (List.getElem?_mem hc)
    cases c with
    | loadRead r =>
      cases hr : r.2 with
      | none => simp [Call.writesNothing, hr] at hwc
      | some err =>
        simp only [Epochs.step, hcr', hc, hr]
        exact ⟨h1, h2, h3, h4⟩
    | loadRate => simp [Call.writesNothing] at hwc
    | loadDone err =>
      simp only [Epochs.step, hcr', hc]
      exact ⟨h1, h2, h3, h4⟩
    | getStart id =>
      simp only [Epochs.step, hcr', hc]
      exact ⟨h1, h2, h3, h4⟩
    | getHashed v =>
      simp only [Epochs.step, hcr', hc]
      refine ⟨h1, h2, ?_, h4⟩
      intro j
      by_cases hj : j = i
      · rw [hj]
        show Function.update e.rateEpoch i e.now i = 0
        rw [Function.update_same]
        exact h1
      · show Function.update e.rateEpoch i e.now j = 0
        rw [Function.update_noteq hj]
        exact h3 j
    | getRate v rate =>
      simp only [Epochs.step, hcr', hc]
      refine ⟨h1, h2, h3, ?_⟩
      intro j
      by_cases hj : j = i
      · rw [hj]
        show Function.update e.boundEpoch i e.bound i = 0
        rw [Function.update_same]
        exact h2
      · show Function.update e.boundEpoch i e.bound j = 0
        rw [Function.update_noteq hj]
        exact h4 j
    | getDone res seen =>
      simp only [Epochs.step, hcr', hc]
      exact ⟨h1, h2, h3, h4⟩

theorem Sys.epochs_unwritten (sched : List Nat) (s : Sys) (e : Epochs) (he : e.Unwritten)
    (hw : ∀ c ∈ s.calls, c.writesNothing = true) : (s.epochs e sched).Unwritten := by
  induction sched generalizing s e with
  | nil => exact he
  | cons i rest ih =>
    exact ih (s.step i) (e.step s i) (Epochs.step_unwritten s e i he hw)
      (Sys.step_calls_writeNothing s i hw)

/-- Any interleaving of `GetSampleRate` calls with each other and with
`loadConfigs` calls whose read of the record fails: from any installed state,
every `GetSampleRate` call that reads `upperBound` reads the bound derived
from the `sampleRate` it returns. -/
theorem readers_and_failed_reloads_consistent (s : Sys) (sched : List Nat)
    (hm : s.mem.Installed) (hc : ∀ c ∈ s.calls, c.isEntry = true)
    (hw : ∀ c ∈ s.calls, c.writesNothing = true) : (s.run sched).Consistent := by
  intro c hmem
  cases c with
  | getDone res seen =>
    cases seen with
    | none => trivial
    | some p =>
      obtain ⟨rate, bound⟩ := p
      obtain ⟨i, hi⟩ := List.getElem?_of_mem hmem
      by_cases hcr : s.crashed = true
      · rw [Sys.run_crashed sched s hcr] at hi
        have := hc _ (List.getElem?_mem hi)
        simp [Call.isEntry] at this
      · have hcr' : s.crashed = false := by simpa using hcr
        have hr : ∀ c ∈ s.calls, c.inRange = true := by
          intro c hmc
          have := hw c hmc
          cases c <;> simp_all [Call.writesNothing, Call.inRange]
        obtain ⟨hist, hinv⟩ := Sys.EpochInv.run sched s Epochs.start _
          (Sys.EpochInv.start s hcr' hm hc hr)
        obtain ⟨_, hder⟩ : res.1 = toUint rate
            ∧ ((s.epochs Epochs.start sched).rateEpoch i
                = (s.epochs Epochs.start sched).boundEpoch i → Derived rate bound) :=
          hinv.calls_ok i _ hi
        obtain ⟨_, _, h3, h4⟩ := Sys.epochs_unwritten sched s Epochs.start
          ⟨rfl, rfl, fun _ => rfl, fun _ => rfl⟩ hw
        exact hder (by rw [h3 i, h4 i])
  | loadRead r => trivial
  | loadRate => trivial
  | loadDone err => trivial
  | getStart id => trivial
  | getHashed v => trivial
  | getRate v rate => trivial

end Sample
